import Mathlib

/-!
# Chat server: registry, message formatting and the epoll dispatch step

A shallow embedding of `src/chat-server/server/main.cpp` and of the presence parser of
`src/chat-server/client/main.cpp`. The allocators of `src/allocator/main.cpp` follow in
the namespace `Allocator`. All definitions come first, the theorems after them.

* `std::string` is modelled by `String` (one `Char` per C++ `char`).
* `uint32_t` values are natural numbers, `int` values are integers.
* `std::map<int, ClientInfo>` is an association list whose keys are strictly
  ascending (`WellFormed`); iteration over the map is iteration over the list.
* The process state is the registry `ClientInfoByFd`, the interest list of
  `epollFd`, and the chronological trace of the effects performed so far.
* What the kernel answers during one dispatch (results of `accept`, `fcntl`,
  `recv`, `send`, the clock) is an input, collected in `Kernel`.
* `exit(EXIT_FAILURE)` and an uncaught `std::length_error` end the process;
  functions that may do so return `Except Fatal _`.
-/

namespace ChatServer

/-! ## Numbers and strings -/

/-- The text `std::to_string` gives for an unsigned value. -/
def to_string (n : Nat) : String := Nat.repr n

/-- The text `std::to_string` and the conversion `%i` give for an `int`. -/
def to_string_int (i : Int) : String :=
  if i < 0 then "-" ++ Nat.repr i.natAbs else Nat.repr i.toNat

/-- Subtraction of two `size_t` values: the result is reduced modulo `2^64`. -/
def size_sub (a b : Nat) : Nat := (a % 2 ^ 64 + 2 ^ 64 - b % 2 ^ 64) % 2 ^ 64

/-- A value of `std::string::max_size()` on a 64-bit platform; the constant belongs to
the standard library. A string of at most 22 characters is padded by `22 - length`, a
longer one by `2^64 + 22 - length`, which exceeds `max_size() - length` whenever
`max_size()` is below `2^64`: every value from 22 up to `2^64 - 1` gives the same results. -/
def max_size : Nat := 2 ^ 63 - 1

/-- How the process can end inside a dispatch. -/
inductive Fatal where
  /-- The call `exit(EXIT_FAILURE)` made by `CheckError` after printing `errorMessage`. -/
  | exit (errorMessage : String)
  /-- An uncaught `std::length_error` thrown by `std::string::insert`. -/
  | length_error
deriving DecidableEq, Repr

/-- The call `s.insert(s.end(), n, c)`: appends `n` copies of `c`, and throws
`std::length_error` when the new length would exceed `max_size()`. -/
def insert_end (s : String) (n : Nat) (c : Char) : Except Fatal String :=
  if max_size - s.length < n then Except.error Fatal.length_error
  else Except.ok (s ++ String.mk (List.replicate n c))

/-- An argument passed to `StringFormat`. -/
inductive FormatArg where
  /-- A `const char*`, read by `%s`. -/
  | str (s : String)
  /-- An `int`, read by `%i`. -/
  | int (i : Int)

/-- The characters `%s` reads from `s.data()`: everything before the first NUL. -/
def c_str (s : String) : List Char := s.data.takeWhile (fun c => c ≠ Char.ofNat 0)

/-- The output of `snprintf` for a format that uses `%s` and `%i` only. -/
def vformat : List Char → List FormatArg → List Char
  | [], _ => []
  | '%' :: 's' :: fmt, FormatArg.str s :: args => c_str s ++ vformat fmt args
  | '%' :: 'i' :: fmt, FormatArg.int i :: args => (to_string_int i).data ++ vformat fmt args
  | c :: fmt, args => c :: vformat fmt args

/-- Source function `StringFormat`: measure with `snprintf`, return the empty
string when the size is zero, otherwise the formatted text. -/
def StringFormat (format : String) (args : List FormatArg) : String :=
  let size := (vformat format.data args).length
  if size = 0 then "" else String.mk (vformat format.data args)

/-- Source function `GetTime`. The argument is `none` when `gettimeofday` fails and
otherwise the bytes `strftime` wrote into `tmBuf`; the result is built from
`tmBuf` as a C string. -/
def GetTime (clock : Option String) : String :=
  match clock with
  | none => ""
  | some tmBuf => String.mk (c_str tmBuf)

def Mask1 : Nat := 0x000000FF
def Mask2 : Nat := 0x0000FF00
def Mask3 : Nat := 0x00FF0000
def Mask4 : Nat := 0xFF000000

/-- Source function `IpToString`. -/
def IpToString (addr : Nat) : String :=
  let value1 := addr &&& Mask1
  let value2 := (addr &&& Mask2) >>> 8
  let value3 := (addr &&& Mask3) >>> 16
  let value4 := (addr &&& Mask4) >>> 24
  to_string value1 ++ "." ++ to_string value2 ++ "." ++ to_string value3 ++ "." ++ to_string value4

/-! ## The registry `std::map<int, ClientInfo> ClientInfoByFd` -/

structure ClientInfo where
  Ip : Nat
  Fd : Int
deriving DecidableEq, Repr

/-- The entries of the map in iteration order. -/
abbrev Registry := List (Int × ClientInfo)

/-- The keys in iteration order. -/
def keys (m : Registry) : List Int := m.map Prod.fst

/-- The representation invariant of `std::map`: keys strictly ascending. -/
def WellFormed (m : Registry) : Prop := (keys m).Pairwise (fun a b => a < b)

instance (m : Registry) : Decidable (WellFormed m) := by
  unfold WellFormed; infer_instance

/-- The lookup `find(k)`. -/
def mapFind : Registry → Int → Option ClientInfo
  | [], _ => none
  | (k1, v) :: rest, k => if k1 = k then some v else mapFind rest k

/-- The member `count(k)`. -/
def mapCount (m : Registry) (k : Int) : Nat :=
  match mapFind m k with
  | none => 0
  | some _ => 1

/-- The statement `m[k] = v`: overwrite the entry of `k`, or insert it at its
place in key order. -/
def mapAssign : Registry → Int → ClientInfo → Registry
  | [], k, v => [(k, v)]
  | (k1, v1) :: rest, k, v =>
    if k < k1 then (k, v) :: (k1, v1) :: rest
    else if k = k1 then (k, v) :: rest
    else (k1, v1) :: mapAssign rest k v

/-- The expression `m[k]` read as a value: when `k` is absent a value-initialised
entry is inserted first. Returns the map afterwards and the value. -/
def mapAt (m : Registry) (k : Int) : Registry × ClientInfo :=
  match mapFind m k with
  | some v => (m, v)
  | none => (mapAssign m k { Ip := 0, Fd := 0 }, { Ip := 0, Fd := 0 })

/-- The member `erase(k)`. -/
def mapErase : Registry → Int → Registry
  | [], _ => []
  | (k1, v1) :: rest, k => if k1 = k then rest else (k1, v1) :: mapErase rest k

/-! ## Process state and effects -/

/-- One effect of the server, in the order the program performs them. -/
inductive Action where
  /-- The call `send(fd, buf.data(), buf.length(), MSG_NOSIGNAL)`. -/
  | send (fd : Int) (buf : String)
  /-- Text written to standard output. -/
  | printf (text : String)
  /-- The call `SetNonblock(fd)` after both `fcntl` calls succeeded. -/
  | set_nonblock (fd : Int)
  /-- The statement `ClientInfoByFd[fd] = ci`. -/
  | insert (fd : Int) (ci : ClientInfo)
  /-- The statement `ClientInfoByFd.erase(fd)`. -/
  | erase (fd : Int)
  /-- The call `epoll_ctl(epollFd, EPOLL_CTL_ADD, fd, &evt)`. -/
  | epoll_add (fd : Int)
  /-- The call `epoll_ctl(epollFd, EPOLL_CTL_DEL, fd, nullptr)`. -/
  | epoll_del (fd : Int)
  /-- The call `shutdown(fd, SHUT_RDWR)`. -/
  | shutdown (fd : Int)
  /-- The call `close(fd)`. -/
  | close (fd : Int)
deriving DecidableEq, Repr

structure Server where
  /-- The global registry. -/
  ClientInfoByFd : Registry
  /-- The interest list of `epollFd`: the listening socket and the client handles. -/
  epoll : List Int
  /-- The effects performed so far, oldest first. -/
  trace : List Action
deriving DecidableEq, Repr

/-- What the kernel answers during one iteration of the dispatch loop. -/
structure Kernel where
  /-- Return value of `accept`. -/
  accept : Int
  /-- The field `clientInfo.sin_addr.s_addr` filled in by `accept`. -/
  s_addr : Nat
  /-- Return value of `fcntl(fd, F_GETFL)`. -/
  getfl : Int
  /-- Return value of `fcntl(fd, F_SETFL, flags)`. -/
  setfl : Int
  /-- The clock as read by the `GetTime()` call in `SendGreeting`. -/
  clockGreeting : Option String
  /-- The clock as read by the `GetTime()` call in the dispatch loop or in `CreateMessage`. -/
  clock : Option String
  /-- Return value of the `send` issued when the trace has the given length. -/
  sendResult : Nat → Int
  /-- False when `epoll_ctl` fails for lack of kernel resources. -/
  epollResources : Bool
  /-- Return value of `recv`. -/
  recv : Int
  /-- Whether `errno == EAGAIN` holds after `recv`. -/
  errnoEAGAIN : Bool
  /-- Contents of the static `buffer` after `recv`. -/
  buffer : String

/-- Append an effect to the trace. -/
def record (a : Action) (s : Server) : Server :=
  { s with trace := s.trace ++ [a] }

/-- The system call `send`; its return value is chosen by the kernel. -/
def send (k : Kernel) (fd : Int) (buf : String) (s : Server) : Int × Server :=
  (k.sendResult s.trace.length, record (Action.send fd buf) s)

/-- Source function `CheckError`. -/
def CheckError (isError : Bool) (errorMessage : String) (s : Server) : Except Fatal Server :=
  if isError then Except.error (Fatal.exit errorMessage) else Except.ok s

/-- Source function `SetNonblock`. -/
def SetNonblock (k : Kernel) (fd : Int) (s : Server) : Except Fatal Server := do
  let flags := k.getfl
  let s ← CheckError (flags == -1) "Couldn't GET flags!" s
  let succ := k.setfl
  let s ← CheckError (succ == -1) "Couldn't SET flags!" s
  pure (record (Action.set_nonblock fd) s)

/-- Source function `CloseConnection` with `ignoreErrors = true`. -/
def CloseConnection (fd : Int) (s : Server) : Server :=
  record (Action.close fd) (record (Action.shutdown fd) s)

/-- Source function `CreateMessage`, given the clock read by its `GetTime()` call. The sender
is padded by `22 - sender.length()` spaces, a `size_t` subtraction. -/
def CreateMessage (clock : Option String) (whoFd : Int) (msg : String) (s : Server) :
    Except Fatal (String × Server) :=
  if mapCount s.ClientInfoByFd whoFd = 0 then
    Except.ok ("", s)
  else
    let ci := (mapAt s.ClientInfoByFd whoFd).2
    let s := { s with ClientInfoByFd := (mapAt s.ClientInfoByFd whoFd).1 }
    let timestamp := StringFormat "[%s]  " [FormatArg.str (GetTime clock)]
    let sender := StringFormat "%s (%i)" [FormatArg.str (IpToString ci.Ip), FormatArg.int whoFd]
    match insert_end sender (size_sub 22 sender.length) ' ' with
    | Except.error e => Except.error e
    | Except.ok sender => Except.ok (timestamp ++ sender ++ " | " ++ msg, s)

/-- The body of the loop in `GetOnlineUsers`, appending to the stream `ss`. -/
def GetOnlineUsersLoop : Registry → String → String
  | [], ss => ss
  | kvp :: rest, ss =>
    GetOnlineUsersLoop rest (ss ++ IpToString kvp.2.Ip ++ "/" ++ to_string_int kvp.2.Fd ++ ";")

/-- Source function `GetOnlineUsers`. -/
def GetOnlineUsers (m : Registry) : String :=
  GetOnlineUsersLoop m (String.mk [Char.ofNat 0x07])

/-- The banner `Greeting`. -/
def Greeting : List String :=
  [ "/=====================\\",
    "|                     |",
    "|       WELCOME       |",
    "|                     |",
    "\\=====================/" ]

/-- The loop of `SendGreeting` over the remaining banner lines; it stops at the
first `send` that returns `-1`. -/
def SendGreetingLoop (k : Kernel) (timestamp server : String) (toWho : Int) :
    List String → Server → Server
  | [], s => s
  | line :: rest, s =>
    let str := timestamp ++ server ++ " | " ++ line
    let r := send k toWho str s
    if r.1 = -1 then r.2 else SendGreetingLoop k timestamp server toWho rest r.2

/-- Source function `SendGreeting`. -/
def SendGreeting (k : Kernel) (toWho : Int) (s : Server) : Except Fatal Server :=
  let timestamp := StringFormat "[%s]  " [FormatArg.str (GetTime k.clockGreeting)]
  match insert_end "SERVER" (size_sub 22 "SERVER".length) ' ' with
  | Except.error e => Except.error e
  | Except.ok server => Except.ok (SendGreetingLoop k timestamp server toWho Greeting s)

/-- The loop of `SendMulticast` over the remaining entries of the registry. -/
def SendMulticastLoop (k : Kernel) (msg : String) (fdToExclude : Int) :
    Registry → Server → Server
  | [], s => s
  | kvp :: rest, s =>
    if fdToExclude ≠ -1 ∧ kvp.1 = fdToExclude then
      SendMulticastLoop k msg fdToExclude rest s
    else
      SendMulticastLoop k msg fdToExclude rest (send k kvp.1 msg s).2

/-- Source function `SendMulticast`; the default argument `-1` is passed explicitly. -/
def SendMulticast (k : Kernel) (msg : String) (fdToExclude : Int) (s : Server) : Server :=
  SendMulticastLoop k msg fdToExclude s.ClientInfoByFd s

/-- The call `epoll_ctl(epollFd, EPOLL_CTL_ADD, fd, _)`: fails when `fd` is already
in the interest list or the kernel lacks resources. -/
def epoll_ctl_add (k : Kernel) (fd : Int) (s : Server) : Int × Server :=
  if fd ∈ s.epoll ∨ k.epollResources = false then
    (-1, record (Action.epoll_add fd) s)
  else
    (0, record (Action.epoll_add fd) { s with epoll := s.epoll ++ [fd] })

/-- The call `epoll_ctl(epollFd, EPOLL_CTL_DEL, fd, nullptr)`: fails when `fd` is not
in the interest list or the kernel lacks resources. -/
def epoll_ctl_del (k : Kernel) (fd : Int) (s : Server) : Int × Server :=
  if fd ∉ s.epoll ∨ k.epollResources = false then
    (-1, record (Action.epoll_del fd) s)
  else
    (0, record (Action.epoll_del fd) { s with epoll := s.epoll.erase fd })

/-- The local `userConnectedMsg` of the accept branch, given the clock read by its
`GetTime()` call. -/
def userConnectedMsg (clock : Option String) (clientIp : String) (client : Int) : String :=
  StringFormat "[%s]  SERVER | %s (%i) connected"
    [FormatArg.str (GetTime clock), FormatArg.str clientIp, FormatArg.int client]

/-- The local `userDisconnectedMsg` of the disconnect branch, for the address `Ip` found in
the registry and the clock read by its `GetTime()` call. -/
def userDisconnectedMsg (clock : Option String) (Ip : Nat) (fd : Int) : String :=
  StringFormat "[%s]  SERVER | %s (%i) disconnected"
    [FormatArg.str (GetTime clock), FormatArg.str (IpToString Ip), FormatArg.int fd]

/-- The branch `events[i].data.fd == masterSocket` of the dispatch loop. -/
def acceptBranch (k : Kernel) (s : Server) : Except Fatal Server := do
  let client := k.accept
  let s ← CheckError (client == -1) "accept() failed!" s
  let s ← SetNonblock k client s
  let s ← SendGreeting k client s
  let clientIp := IpToString k.s_addr
  let s := record (Action.insert client { Ip := k.s_addr, Fd := client })
    { s with ClientInfoByFd := mapAssign s.ClientInfoByFd client { Ip := k.s_addr, Fd := client } }
  let s := SendMulticast k (GetOnlineUsers s.ClientInfoByFd) (-1) s
  let userConnectedMsg := userConnectedMsg k.clock clientIp client
  let s := record (Action.printf (StringFormat "%s\n" [FormatArg.str userConnectedMsg])) s
  let s := SendMulticast k userConnectedMsg client s
  let r := epoll_ctl_add k client s
  CheckError (r.1 == -1) "Failed to register epoll event!" r.2

/-- The `else` branch of the dispatch loop: `recv` on a client handle. -/
def readBranch (k : Kernel) (fd : Int) (s : Server) : Except Fatal Server :=
  let res := k.recv
  if res = 0 ∧ k.errnoEAGAIN = false then do
    let ci := (mapAt s.ClientInfoByFd fd).2
    let s := { s with ClientInfoByFd := (mapAt s.ClientInfoByFd fd).1 }
    let userDisconnectedMsg := userDisconnectedMsg k.clock ci.Ip fd
    let s := record (Action.printf (StringFormat "%s\n" [FormatArg.str userDisconnectedMsg])) s
    let s := record (Action.erase fd) { s with ClientInfoByFd := mapErase s.ClientInfoByFd fd }
    let s := SendMulticast k userDisconnectedMsg (-1) s
    let s := SendMulticast k (GetOnlineUsers s.ClientInfoByFd) (-1) s
    let r := epoll_ctl_del k fd s
    let s ← CheckError (r.1 == -1) "Failed to delete fd from epoll!" r.2
    pure (CloseConnection fd s)
  else if res > 0 then
    let msg := String.mk (k.buffer.data.take res.toNat)
    match CreateMessage k.clock fd msg s with
    | Except.error e => Except.error e
    | Except.ok r => Except.ok (SendMulticast k r.1 (-1) r.2)
  else
    Except.ok s

/-- One iteration of the loop `for (int i = 0; i < n; i++)`, for the ready handle `fd`. -/
def dispatch (masterSocket : Int) (fd : Int) (k : Kernel) (s : Server) : Except Fatal Server :=
  if fd = masterSocket then acceptBranch k s else readBranch k fd s

/-- The dispatch loop over a sequence of readiness events, each with the kernel's
answers for it. -/
def run (masterSocket : Int) : List (Int × Kernel) → Server → Except Fatal Server
  | [], s => Except.ok s
  | ev :: rest, s =>
    match dispatch masterSocket ev.1 ev.2 s with
    | Except.error e => Except.error e
    | Except.ok s1 => run masterSocket rest s1

/-- The state when the loop is entered: empty registry, only the listening
socket registered. -/
def init (masterSocket : Int) : Server :=
  { ClientInfoByFd := [], epoll := [masterSocket], trace := [] }

/-- The client handles in the interest list. -/
def clientHandles (masterSocket : Int) (s : Server) : List Int :=
  s.epoll.filter (fun fd => fd ≠ masterSocket)

/-- The sends of one message to a list of handles, in order. -/
def sends (fds : List Int) (msg : String) : List Action :=
  fds.map (fun fd => Action.send fd msg)

/-- The presence entry of one session as the specification words it:
address, a slash, the handle in decimal, a semicolon. -/
def presenceEntry (ci : ClientInfo) : String :=
  IpToString ci.Ip ++ "/" ++ to_string_int ci.Fd ++ ";"

/-- Concatenation of a list of strings with nothing in between. -/
def concat : List String → String
  | [] => ""
  | x :: xs => x ++ concat xs

/-- The sender tag as the specification words it: the address, a space, and the
handle in decimal between parentheses. -/
def senderTag (Ip : Nat) (fd : Int) : String :=
  IpToString Ip ++ " (" ++ to_string_int fd ++ ")"

/-- A run of `n` spaces. -/
def spaces (n : Nat) : String := String.mk (List.replicate n ' ')

/-- A greeting frame: timestamp prefix, `SERVER` padded to 22 characters, separator, line. -/
def greetingFrame (t line : String) : String :=
  "[" ++ t ++ "]  " ++ ("SERVER" ++ spaces 16) ++ " | " ++ line

/-- A string without NUL characters. -/
def NoNul (s : String) : Prop := ∀ c ∈ s.data, c ≠ Char.ofNat 0

/-- The invariant of the dispatch loop: the registry is a well-formed map, the listening
socket stays registered, no handle is registered twice, and the keys of the registry are
exactly the client handles in the interest list. -/
def Inv (masterSocket : Int) (s : Server) : Prop :=
  WellFormed s.ClientInfoByFd ∧ masterSocket ∈ s.epoll ∧ s.epoll.Nodup ∧
    ∀ fd, fd ∈ keys s.ClientInfoByFd ↔ fd ∈ clientHandles masterSocket s

/-- A decimal digit character. -/
def IsDigitChar (c : Char) : Prop := c.isDigit = true

/-- A kernel whose calls all succeed, used to build concrete inputs. -/
def okKernel : Kernel :=
  { accept := 5, s_addr := 0x0100007F, getfl := 2, setfl := 0,
    clockGreeting := some "12:00:00", clock := some "12:00:01",
    sendResult := fun _ => 1, epollResources := true,
    recv := 0, errnoEAGAIN := false, buffer := "" }

/-- A sample run: two accepts (handles 5 and 6) whose greeting is cut short by a failing
`send`, a two-byte chat read from 5, a would-block read on 6, and the peer of 5 closing. -/
def demoEvents : List (Int × Kernel) :=
  [ (3, { okKernel with accept := 5, sendResult := fun _ => -1 }),
    (3, { okKernel with accept := 6, s_addr := 0x6464A8C0, sendResult := fun _ => -1 }),
    (5, { okKernel with recv := 2, buffer := "hi" }),
    (6, { okKernel with recv := -1, errnoEAGAIN := true }),
    (5, { okKernel with recv := 0, errnoEAGAIN := false }) ]

/-- The state the sample run ends in. -/
def demoFinal : Server :=
  { ClientInfoByFd := [(6, { Ip := 0x6464A8C0, Fd := 6 })],
    epoll := [3, 6],
    trace :=
      [ Action.set_nonblock 5,
        Action.send 5 "[12:00:00]  SERVER                 | /=====================\\",
        Action.insert 5 { Ip := 0x0100007F, Fd := 5 },
        Action.send 5 (String.mk [Char.ofNat 0x07] ++ "127.0.0.1/5;"),
        Action.printf "[12:00:01]  SERVER | 127.0.0.1 (5) connected\n",
        Action.epoll_add 5,
        Action.set_nonblock 6,
        Action.send 6 "[12:00:00]  SERVER                 | /=====================\\",
        Action.insert 6 { Ip := 0x6464A8C0, Fd := 6 },
        Action.send 5 (String.mk [Char.ofNat 0x07] ++ "127.0.0.1/5;192.168.100.100/6;"),
        Action.send 6 (String.mk [Char.ofNat 0x07] ++ "127.0.0.1/5;192.168.100.100/6;"),
        Action.printf "[12:00:01]  SERVER | 192.168.100.100 (6) connected\n",
        Action.send 5 "[12:00:01]  SERVER | 192.168.100.100 (6) connected",
        Action.epoll_add 6,
        Action.send 5 "[12:00:01]  127.0.0.1 (5)          | hi",
        Action.send 6 "[12:00:01]  127.0.0.1 (5)          | hi",
        Action.printf "[12:00:01]  SERVER | 127.0.0.1 (5) disconnected\n",
        Action.erase 5,
        Action.send 6 "[12:00:01]  SERVER | 127.0.0.1 (5) disconnected",
        Action.send 6 (String.mk [Char.ofNat 0x07] ++ "192.168.100.100/6;"),
        Action.epoll_del 5,
        Action.shutdown 5,
        Action.close 5 ] }

/-- A state with one session, handle 5 at 127.0.0.1, used to build concrete inputs. -/
def oneClient : Server :=
  { ClientInfoByFd := [(5, { Ip := 0x0100007F, Fd := 5 })], epoll := [3, 5], trace := [] }

/-! ## The client's presence parser (`src/chat-server/client/main.cpp`) -/

/-- The loop of `ParseOnlineUsers` over the remaining characters of `msg`: `ss` is the
content of the string stream and `OnlineUsers` the global list built so far. -/
def ParseOnlineUsersLoop : List Char → String → List String → List String
  | [], _, OnlineUsers => OnlineUsers
  | c :: rest, ss, OnlineUsers =>
    if c = ';' then
      ParseOnlineUsersLoop rest "" (OnlineUsers ++ [ss ++ ")"])
    else if c = '/' then
      ParseOnlineUsersLoop rest (ss ++ " (") OnlineUsers
    else if c ≠ Char.ofNat 0x07 then
      ParseOnlineUsersLoop rest (ss.push c) OnlineUsers
    else
      ParseOnlineUsersLoop rest ss OnlineUsers

/-- Source function `ParseOnlineUsers` of the client; the result is the global `OnlineUsers`
after the call, which starts by clearing it. -/
def ParseOnlineUsers (msg : String) : List String :=
  ParseOnlineUsersLoop msg.data "" []

/-- A decimal numeral without leading zeros: digits only, and either the text `0` or a
first digit other than `0`. -/
def IsCanonicalDecimal (s : String) : Prop :=
  (∀ c ∈ s.data, IsDigitChar c) ∧ (s = "0" ∨ ∃ c rest, s.data = c :: rest ∧ c ≠ '0')

/-- A character that `ParseOnlineUsers` copies to the stream unchanged. -/
def IsPlainChar (c : Char) : Prop := c ≠ ';' ∧ c ≠ '/' ∧ c ≠ Char.ofNat 0x07

/-- A state with two sessions, handles 5 and 6, used to build concrete inputs. -/
def twoClients : Server :=
  { ClientInfoByFd := [(5, { Ip := 0x0100007F, Fd := 5 }), (6, { Ip := 0x6464A8C0, Fd := 6 })],
    epoll := [3, 5, 6], trace := [] }

end ChatServer

/-!
# Allocators (`src/allocator/main.cpp`)

* The buffer `_memory` is a list of bytes; a pointer into it is its offset, and
  `nullptr` is `none`.
* `uint64_t` values are natural numbers; sums and differences are reduced modulo `2^64`.
* A `std::map` is an association list with strictly ascending keys.
* A call that the language or the library leaves undefined has no result, and the
  functions return `none` there: a read or write outside `_memory`, a reference to an
  erased map element, `memset` or `memcpy` with a null pointer, `memcpy` on ranges that
  overlap.
-/

namespace Allocator

/-! ## Maps with `uint64_t` or pointer keys -/

/-- The keys in iteration order. -/
def keys {β : Type} (m : List (Nat × β)) : List Nat := m.map Prod.fst

/-- The lookup `find(k)`. -/
def find {β : Type} : List (Nat × β) → Nat → Option β
  | [], _ => none
  | (k1, v) :: rest, k => if k1 = k then some v else find rest k

/-- The member `count(k)`. -/
def count {β : Type} (m : List (Nat × β)) (k : Nat) : Nat :=
  match find m k with
  | none => 0
  | some _ => 1

/-- The statement `m[k] = v`: overwrite the entry of `k`, or insert it at its place in
key order. -/
def assign {β : Type} : List (Nat × β) → Nat → β → List (Nat × β)
  | [], k, v => [(k, v)]
  | (k1, v1) :: rest, k, v =>
    if k < k1 then (k, v) :: (k1, v1) :: rest
    else if k = k1 then (k, v) :: rest
    else (k1, v1) :: assign rest k v

/-- The member `erase(k)`. -/
def erase {β : Type} : List (Nat × β) → Nat → List (Nat × β)
  | [], _ => []
  | (k1, v1) :: rest, k => if k1 = k then rest else (k1, v1) :: erase rest k

/-! ## Memory -/

/-- Subtraction of two `uint64_t` values. -/
def u64_sub (a b : Nat) : Nat := (a % 2 ^ 64 + 2 ^ 64 - b % 2 ^ 64) % 2 ^ 64

/-- Store `value` into the `n` bytes from offset `a` on. -/
def fill : Nat → List Nat → Nat → Nat → List Nat
  | 0, mem, _, _ => mem
  | n + 1, mem, a, value => fill n (mem.set a value) (a + 1) value

/-- The call `std::memset(ptr, value, n)` on the buffer; `none` when `ptr` is null or
bytes outside the buffer would be written. -/
def memset (mem : List Nat) (ptr : Option Nat) (value n : Nat) : Option (List Nat) :=
  match ptr with
  | none => none
  | some a => if a + n ≤ mem.length then some (fill n mem a value) else none

/-- Copy `n` bytes from offset `src` to offset `dst`. It is used for ranges that do not
overlap only, where the order of the bytes makes no difference. -/
def copyForward : Nat → List Nat → Nat → Nat → List Nat
  | 0, mem, _, _ => mem
  | n + 1, mem, dst, src => copyForward n (mem.set dst (mem.getD src 0)) (dst + 1) (src + 1)

/-- The call `std::memcpy(dst, src, n)` inside the buffer. The library defines it only
for valid pointers and for ranges that do not overlap: the result is `none` when a
pointer is null, when bytes outside the buffer would be touched, and when the ranges
`[dst, dst + n)` and `[src, src + n)` share a byte. -/
def memcpy (mem : List Nat) (dst src : Option Nat) (n : Nat) : Option (List Nat) :=
  match dst, src with
  | some d, some a =>
    if d + n ≤ mem.length ∧ a + n ≤ mem.length ∧ (n = 0 ∨ d + n ≤ a ∨ a + n ≤ d) then
      some (copyForward n mem d a)
    else none
  | _, _ => none

/-! ## `SmartAllocator<MemorySize>` -/

structure BlockInfo where
  Id : Nat
  Addr : Option Nat
  Size : Nat
deriving DecidableEq, Repr

/-- The member `_nullReference`. -/
def nullReference : BlockInfo := { Id := 0, Addr := none, Size := 0 }

structure SmartAllocator where
  _memory : List Nat
  _index : Nat
  _blockInfoById : List (Nat × BlockInfo)
  _blockUniqueId : Nat
deriving DecidableEq, Repr

/-- A `const BlockInfo&` held by the caller: the member `_nullReference`, the element
stored in `_blockInfoById` under a key (what `Alloc` returns), or an object of the
caller's own. -/
inductive BlockRef where
  | null
  | entry (key : Nat)
  | object (bi : BlockInfo)
deriving DecidableEq, Repr

/-- The `BlockInfo` a reference denotes in the current state; `none` for a reference to
an element that is no longer in the map. -/
def deref (s : SmartAllocator) : BlockRef → Option BlockInfo
  | BlockRef.null => some nullReference
  | BlockRef.entry key => find s._blockInfoById key
  | BlockRef.object bi => some bi

/-- Source function `SmartAllocator::Reset`. -/
def Reset (MemorySize : Nat) (s : SmartAllocator) : SmartAllocator :=
  { s with _blockInfoById := [], _memory := List.replicate MemorySize 0, _index := 0 }

/-- The state after the constructor: `_blockUniqueId = 1`, then `Reset()`. -/
def construct (MemorySize : Nat) : SmartAllocator :=
  Reset MemorySize { _memory := [], _index := 0, _blockInfoById := [], _blockUniqueId := 1 }

/-- Source function `SmartAllocator::Alloc`; returns the reference and the new state. -/
def Alloc (MemorySize : Nat) (s : SmartAllocator) (size : Nat) : BlockRef × SmartAllocator :=
  if (s._index + size) % 2 ^ 64 ≥ MemorySize then
    (BlockRef.null, s)
  else
    let addr := s._index
    let bi : BlockInfo := { Id := s._blockUniqueId, Addr := some addr, Size := size }
    (BlockRef.entry bi.Id,
      { s with
        _index := (s._index + size) % 2 ^ 64,
        _blockUniqueId := (s._blockUniqueId + 1) % 2 ^ 64,
        _blockInfoById := assign s._blockInfoById bi.Id bi })

/-- Source function `SmartAllocator::Free`. The argument is a reference: `blockToFree.Id` is
read again after `_blockInfoById[blockToFree.Id] = _nullReference`, so for a reference to
the map element itself the key passed to `erase` is the `Id` of the null value. -/
def Free (s : SmartAllocator) (blockToFree : BlockRef) : Option SmartAllocator :=
  match deref s blockToFree with
  | none => none
  | some b =>
    if count s._blockInfoById b.Id = 1 then
      match find s._blockInfoById b.Id with
      | none => none
      | some bi =>
        match memset s._memory b.Addr 0 bi.Size with
        | none => none
        | some mem =>
          let s1 := { s with
            _memory := mem,
            _blockInfoById := assign s._blockInfoById b.Id nullReference }
          match deref s1 blockToFree with
          | none => none
          | some b1 => some { s1 with _blockInfoById := erase s1._blockInfoById b1.Id }
    else
      some s

/-- The loop of `Defragment` over the remaining map elements, in key order: `mem` is the
buffer, `index` the local of that name (`addr` is `&_memory[index]`, and `&_memory` at the
start). Returns the processed elements, the buffer and `index`. -/
def DefragmentLoop : List (Nat × BlockInfo) → List Nat → Nat →
    Option (List (Nat × BlockInfo) × List Nat × Nat)
  | [], mem, index => some ([], mem, index)
  | (key, bi) :: rest, mem, index =>
    match memcpy mem (some index) bi.Addr bi.Size with
    | none => none
    | some mem1 =>
      match DefragmentLoop rest mem1 ((index + bi.Size) % 2 ^ 64) with
      | none => none
      | some r => some ((key, { bi with Addr := some index }) :: r.1, r.2.1, r.2.2)

/-- Source function `SmartAllocator::Defragment`. -/
def Defragment (MemorySize : Nat) (s : SmartAllocator) : Option SmartAllocator :=
  match DefragmentLoop s._blockInfoById s._memory 0 with
  | none => none
  | some r =>
    match memset r.2.1 (some r.2.2) 0 (u64_sub MemorySize r.2.2) with
    | none => none
    | some mem =>
      some { s with _blockInfoById := r.1, _memory := mem, _index := r.2.2 }

/-- A call made by the user of the allocator. -/
inductive Op where
  /-- The call `Alloc(size)`. -/
  | alloc (size : Nat)
  /-- The call `Free(blockToFree)`. -/
  | free (blockToFree : BlockRef)
  /-- The call `Defragment()`. -/
  | defragment
  /-- A store of one byte through a pointer into the buffer, as `FillBuffer` does. -/
  | write (offset value : Nat)
deriving DecidableEq, Repr

/-- One call that stays within the buffer and within defined behaviour; `none`
otherwise: an `Alloc` whose `_index + size` or whose Id counter would wrap around `2^64`,
an undefined `memset` or `memcpy`, a reference to an erased element, a store outside the
buffer. -/
def step (MemorySize : Nat) (s : SmartAllocator) : Op → Option SmartAllocator
  | Op.alloc size =>
    if s._index + size < 2 ^ 64 ∧ s._blockUniqueId + 1 < 2 ^ 64 then
      some (Alloc MemorySize s size).2
    else none
  | Op.free blockToFree => Free s blockToFree
  | Op.defragment => Defragment MemorySize s
  | Op.write offset value =>
    if offset < MemorySize then some { s with _memory := s._memory.set offset value }
    else none

/-- A sequence of calls, each staying within the buffer. -/
def run (MemorySize : Nat) : List Op → SmartAllocator → Option SmartAllocator
  | [], s => some s
  | op :: rest, s =>
    match step MemorySize s op with
    | none => none
    | some s1 => run MemorySize rest s1

/-- The sum of the sizes of a list of blocks. -/
def sizeSum (l : List (Nat × BlockInfo)) : Nat := (l.map (fun e => e.2.Size)).sum

/-- The blocks laid out one after the other from offset `base` on, in list order; keys,
`Id` and `Size` are kept. -/
def compacted : Nat → List (Nat × BlockInfo) → List (Nat × BlockInfo)
  | _, [] => []
  | base, (key, bi) :: rest =>
    (key, { bi with Addr := some base }) :: compacted (base + bi.Size) rest

/-- The blocks lie in list order between `lo` and `hi` without overlap: every block of
positive size starts at or after the end of the blocks before it. -/
def Laid : Nat → List (Nat × BlockInfo) → Nat → Prop
  | lo, [], hi => lo ≤ hi
  | lo, e :: rest, hi =>
    (e.2.Size = 0 ∧ Laid lo rest hi) ∨
      (∃ a, e.2.Addr = some a ∧ lo ≤ a ∧ Laid (a + e.2.Size) rest hi)

/-- The invariant of the allocator over calls that stay within the buffer. -/
def Inv (MemorySize : Nat) (s : SmartAllocator) : Prop :=
  s._memory.length = MemorySize ∧ s._index ≤ MemorySize
    ∧ (keys s._blockInfoById).Pairwise (fun a b => a < b)
    ∧ (∀ k ∈ keys s._blockInfoById, k < s._blockUniqueId)
    ∧ Laid 0 s._blockInfoById s._index

/-! ## `SmallAllocator` -/

structure SmallAllocator where
  _memory : List Nat
  _index : Nat
  _blockSizeByAddr : List (Nat × Nat)
deriving DecidableEq, Repr

/-- The constant `SmallAllocator::MemorySize`. -/
def SmallAllocator.MemorySize : Nat := 32

/-- Source function `SmallAllocator::Alloc`; returns the pointer and the new state. -/
def SmallAllocator.Alloc (s : SmallAllocator) (size : Nat) : Option Nat × SmallAllocator :=
  if (s._index + size) % 2 ^ 64 ≥ SmallAllocator.MemorySize then
    (none, s)
  else
    let addr := s._index
    (some addr,
      { s with
        _blockSizeByAddr := assign s._blockSizeByAddr addr size,
        _index := (s._index + size) % 2 ^ 64 })

/-- The state after the constructor of `SmallAllocator`, which calls `Reset()`. -/
def SmallAllocator.construct : SmallAllocator :=
  { _memory := List.replicate SmallAllocator.MemorySize 0, _index := 0, _blockSizeByAddr := [] }

/-- Two blocks of 4 bytes each, the first freed through a copy of its `BlockInfo`: the
remaining block and its new place do not overlap. -/
def disjointOps : List Op :=
  [ Op.alloc 4, Op.alloc 4,
    Op.write 4 1, Op.write 5 2, Op.write 6 3, Op.write 7 4,
    Op.free (BlockRef.object { Id := 1, Addr := some 0, Size := 4 }) ]

end Allocator

namespace ChatServer

/-! ## Characters of the formatted numbers -/

theorem digitChar_isDigit (d : Nat) (h : d < 10) : IsDigitChar (Nat.digitChar d) := by
  unfold IsDigitChar
  revert d
  decide

theorem toDigitsCore_digits (fuel : Nat) :
    ∀ (n : Nat) (ds : List Char), (∀ c ∈ ds, IsDigitChar c) →
      ∀ c ∈ Nat.toDigitsCore 10 fuel n ds, IsDigitChar c := by
  induction fuel with
  | zero => intro n ds h c hc; exact h c (by simpa [Nat.toDigitsCore] using hc)
  | succ fuel ih =>
    intro n ds h c hc
    have hd : IsDigitChar (Nat.digitChar (n % 10)) := digitChar_isDigit _ (Nat.mod_lt _ (by decide))
    have hds : ∀ c ∈ Nat.digitChar (n % 10) :: ds, IsDigitChar c := by
      intro c hc
      rcases List.mem_cons.mp hc with rfl | hc
      · exact hd
      · exact h c hc
    simp only [Nat.toDigitsCore] at hc
    by_cases h0 : n / 10 = 0
    · rw [if_pos h0] at hc
      exact hds c hc
    · rw [if_neg h0] at hc
      exact ih _ _ hds c hc

theorem to_string_digits (n : Nat) : ∀ c ∈ (to_string n).data, IsDigitChar c := by
  intro c hc
  exact toDigitsCore_digits _ _ [] (by simp) c (by simpa [to_string, Nat.repr, Nat.toDigits, List.asString] using hc)

theorem to_string_int_chars (i : Int) :
    ∀ c ∈ (to_string_int i).data, IsDigitChar c ∨ c = '-' := by
  intro c hc
  unfold to_string_int at hc
  split at hc
  · simp only [String.data_append, List.mem_append] at hc
    rcases hc with hc | hc
    · right; simpa using hc
    · left; exact to_string_digits _ c hc
  · left; exact to_string_digits _ c hc

theorem IpToString_chars (addr : Nat) :
    ∀ c ∈ (IpToString addr).data, IsDigitChar c ∨ c = '.' := by
  intro c hc
  simp only [IpToString, String.data_append, List.mem_append] at hc
  have hdot : ∀ c : Char, c ∈ ".".data → c = '.' := by intro c h; simpa using h
  rcases hc with ((((((hc | hc) | hc) | hc) | hc) | hc) | hc)
  all_goals first
    | exact Or.inl (to_string_digits _ c hc)
    | exact Or.inr (hdot c hc)

theorem c_str_eq_data (s : String) (h : ∀ c ∈ s.data, c ≠ Char.ofNat 0) : c_str s = s.data := by
  unfold c_str
  rw [List.takeWhile_eq_self_iff]
  intro c hc
  simpa using h c hc

theorem c_str_no_nul (s : String) : ∀ c ∈ c_str s, c ≠ Char.ofNat 0 := by
  intro c hc
  have := List.mem_takeWhile_imp hc
  simpa using this

theorem not_digit_nul : ¬ IsDigitChar (Char.ofNat 0) := by unfold IsDigitChar; decide

theorem c_str_IpToString (addr : Nat) : c_str (IpToString addr) = (IpToString addr).data := by
  apply c_str_eq_data
  intro c hc h0
  subst h0
  rcases IpToString_chars addr _ hc with h | h
  · exact not_digit_nul h
  · exact absurd h (by decide)

theorem c_str_GetTime (clock : Option String) : c_str (GetTime clock) = (GetTime clock).data := by
  apply c_str_eq_data
  cases clock with
  | none => simp [GetTime]
  | some tmBuf => exact c_str_no_nul tmBuf

/-! ## The registry as a map -/

theorem mem_keys_mapAssign (m : Registry) (k : Int) (v : ClientInfo) (x : Int) :
    x ∈ keys (mapAssign m k v) ↔ x = k ∨ x ∈ keys m := by
  induction m with
  | nil => simp [mapAssign, keys]
  | cons e rest ih =>
    obtain ⟨k1, v1⟩ := e
    unfold mapAssign
    by_cases h1 : k < k1
    · simp [h1, keys]
    · by_cases h2 : k = k1
      · subst h2
        simp [keys]
      · simp only [h1, h2, if_false]
        simp only [keys, List.map_cons, List.mem_cons] at ih ⊢
        rw [ih]
        tauto

theorem wellFormed_mapAssign (m : Registry) (k : Int) (v : ClientInfo) (h : WellFormed m) :
    WellFormed (mapAssign m k v) := by
  induction m with
  | nil => simp [mapAssign, WellFormed, keys]
  | cons e rest ih =>
    obtain ⟨k1, v1⟩ := e
    have hrest : WellFormed rest := by
      unfold WellFormed keys at h ⊢
      exact (List.pairwise_cons.mp h).2
    have hhead : ∀ x ∈ keys rest, k1 < x := by
      unfold WellFormed keys at h
      exact (List.pairwise_cons.mp h).1
    unfold mapAssign
    by_cases h1 : k < k1
    · simp only [h1, if_true]
      unfold WellFormed keys
      refine List.pairwise_cons.mpr ⟨?_, h⟩
      intro x hx
      rcases List.mem_cons.mp hx with rfl | hx
      · exact h1
      · exact lt_trans h1 (hhead x hx)
    · by_cases h2 : k = k1
      · subst h2
        simp only [lt_irrefl, if_false, if_true]
        unfold WellFormed keys
        exact List.pairwise_cons.mpr ⟨hhead, hrest⟩
      · simp only [h1, h2, if_false]
        have ih1 := ih hrest
        unfold WellFormed
        show List.Pairwise _ (k1 :: keys (mapAssign rest k v))
        refine List.pairwise_cons.mpr ⟨?_, ih1⟩
        intro x hx
        rcases (mem_keys_mapAssign rest k v x).mp hx with rfl | hx
        · omega
        · exact hhead x hx

theorem mapErase_eq_filter (m : Registry) (k : Int) (h : WellFormed m) :
    mapErase m k = m.filter (fun e => decide (e.1 ≠ k)) := by
  induction m with
  | nil => rfl
  | cons e rest ih =>
    obtain ⟨k1, v1⟩ := e
    have hrest : WellFormed rest := by
      unfold WellFormed keys at h ⊢
      exact (List.pairwise_cons.mp h).2
    have hhead : ∀ x ∈ keys rest, k1 < x := by
      unfold WellFormed keys at h
      exact (List.pairwise_cons.mp h).1
    unfold mapErase
    by_cases h1 : k1 = k
    · subst h1
      simp only [if_true, ne_eq, not_true_eq_false, decide_False, Bool.false_eq_true,
        not_false_eq_true, List.filter_cons_of_neg]
      symm
      rw [List.filter_eq_self]
      intro e he
      have : k1 < e.1 := hhead e.1 (List.mem_map_of_mem Prod.fst he)
      simp only [ne_eq, decide_eq_true_eq]
      omega
    · simp only [h1, if_false, ne_eq, not_false_eq_true, decide_True, List.filter_cons_of_pos]
      rw [ih hrest]

theorem wellFormed_mapErase (m : Registry) (k : Int) (h : WellFormed m) :
    WellFormed (mapErase m k) := by
  rw [mapErase_eq_filter m k h]
  unfold WellFormed keys at h ⊢
  exact List.Pairwise.sublist (List.Sublist.map _ (List.filter_sublist _)) h

theorem mem_keys_mapErase (m : Registry) (k : Int) (h : WellFormed m) (x : Int) :
    x ∈ keys (mapErase m k) ↔ x ∈ keys m ∧ x ≠ k := by
  rw [mapErase_eq_filter m k h]
  simp only [keys, List.mem_map, List.mem_filter, ne_eq, decide_eq_true_eq]
  constructor
  · rintro ⟨e, ⟨he, hne⟩, rfl⟩
    exact ⟨⟨e, he, rfl⟩, hne⟩
  · rintro ⟨⟨e, he, rfl⟩, hne⟩
    exact ⟨e, ⟨he, hne⟩, rfl⟩

theorem mapFind_eq_none_iff (m : Registry) (k : Int) : mapFind m k = none ↔ k ∉ keys m := by
  induction m with
  | nil => simp [mapFind, keys]
  | cons e rest ih =>
    obtain ⟨k1, v1⟩ := e
    unfold mapFind
    by_cases h1 : k1 = k
    · simp [h1, keys]
    · simp only [h1, if_false, ih]
      simp only [keys, List.map_cons, List.mem_cons, not_or]
      constructor
      · intro h; exact ⟨fun hk => h1 hk.symm, h⟩
      · intro h; exact h.2

theorem mapCount_ne_zero_iff (m : Registry) (k : Int) : mapCount m k ≠ 0 ↔ k ∈ keys m := by
  have h := mapFind_eq_none_iff m k
  unfold mapCount
  cases hf : mapFind m k with
  | none => simpa using h.mp hf
  | some v =>
    have : k ∈ keys m := by
      by_contra hk
      rw [h.mpr hk] at hf
      exact Option.noConfusion hf
    simpa using this

theorem mapAt_of_find (m : Registry) (k : Int) (v : ClientInfo) (h : mapFind m k = some v) :
    mapAt m k = (m, v) := by
  simp [mapAt, h]

theorem mapAssign_filter_of_not_mem (m : Registry) (k : Int) (v : ClientInfo)
    (h : k ∉ keys m) :
    (mapAssign m k v).filter (fun e => decide (e.1 ≠ k)) = m := by
  induction m with
  | nil => simp [mapAssign]
  | cons e rest ih =>
    obtain ⟨k1, v1⟩ := e
    simp only [keys, List.map_cons, List.mem_cons, not_or] at h
    have hk : ¬ k1 = k := fun hk => h.1 hk.symm
    have ih1 := ih (by simpa [keys] using h.2)
    have hrest : List.filter (fun e : Int × ClientInfo => decide (e.1 ≠ k)) rest = rest := by
      rw [List.filter_eq_self]
      intro e he
      have : e.1 ≠ k := by
        intro hek
        exact h.2 (hek ▸ List.mem_map_of_mem Prod.fst he)
      simpa using this
    unfold mapAssign
    by_cases h1 : k < k1
    · rw [if_pos h1, List.filter_cons_of_neg (by simp),
        List.filter_cons_of_pos (by simpa using hk), hrest]
    · rw [if_neg h1, if_neg h.1, List.filter_cons_of_pos (by simpa using hk), ih1]

theorem mapAssign_perm (m : Registry) (k : Int) (v : ClientInfo) (h : k ∉ keys m) :
    List.Perm (mapAssign m k v) ((k, v) :: m) := by
  induction m with
  | nil => simp [mapAssign]
  | cons e rest ih =>
    obtain ⟨k1, v1⟩ := e
    simp only [keys, List.map_cons, List.mem_cons, not_or] at h
    have ih1 := ih (by simpa [keys] using h.2)
    unfold mapAssign
    by_cases h1 : k < k1
    · simp [h1]
    · simp only [h1, h.1, if_false]
      exact (List.Perm.cons _ ih1).trans (List.Perm.swap _ _ _)

/-! ## The loops -/

theorem SendMulticastLoop_eq (k : Kernel) (msg : String) (x : Int) (l : Registry) :
    ∀ s : Server, SendMulticastLoop k msg x l s =
      { s with trace := s.trace ++
          sends ((keys l).filter (fun fd => decide (¬ (x ≠ -1 ∧ fd = x)))) msg } := by
  induction l with
  | nil => intro s; simp [SendMulticastLoop, sends, keys]
  | cons e rest ih =>
    intro s
    unfold SendMulticastLoop
    by_cases h : x ≠ -1 ∧ e.1 = x
    · rw [if_pos h, ih]
      have : List.filter (fun fd => decide (¬ (x ≠ -1 ∧ fd = x))) (keys (e :: rest))
          = List.filter (fun fd => decide (¬ (x ≠ -1 ∧ fd = x))) (keys rest) := by
        simp only [keys, List.map_cons]
        rw [List.filter_cons_of_neg (by simp only [decide_eq_true_eq]; exact not_not.mpr h)]
      rw [this]
    · rw [if_neg h, ih]
      have : List.filter (fun fd => decide (¬ (x ≠ -1 ∧ fd = x))) (keys (e :: rest))
          = e.1 :: List.filter (fun fd => decide (¬ (x ≠ -1 ∧ fd = x))) (keys rest) := by
        simp only [keys, List.map_cons]
        rw [List.filter_cons_of_pos (by simp only [decide_eq_true_eq]; exact h)]
      rw [this]
      simp [send, record, sends]

theorem SendMulticast_eq (k : Kernel) (msg : String) (x : Int) (s : Server) :
    SendMulticast k msg x s =
      { s with trace := s.trace ++
          sends ((keys s.ClientInfoByFd).filter (fun fd => decide (¬ (x ≠ -1 ∧ fd = x)))) msg } :=
  SendMulticastLoop_eq k msg x s.ClientInfoByFd s

theorem SendMulticast_all (k : Kernel) (msg : String) (s : Server) :
    SendMulticast k msg (-1) s =
      { s with trace := s.trace ++ sends (keys s.ClientInfoByFd) msg } := by
  rw [SendMulticast_eq]
  congr 2
  congr 1
  rw [List.filter_eq_self]
  intro a _
  simp

theorem SendMulticast_except (k : Kernel) (msg : String) (x : Int) (hx : x ≠ -1) (s : Server) :
    SendMulticast k msg x s =
      { s with trace := s.trace ++
          sends ((keys s.ClientInfoByFd).filter (fun fd => decide (fd ≠ x))) msg } := by
  rw [SendMulticast_eq]
  congr 2
  congr 1
  apply List.filter_congr
  intro a _
  simp [hx]

theorem wellFormed_nodup (m : Registry) (h : WellFormed m) : (keys m).Nodup := by
  unfold WellFormed at h
  exact List.Pairwise.imp (fun hab => ne_of_lt hab) h

theorem GetOnlineUsersLoop_eq (m : Registry) :
    ∀ ss : String, GetOnlineUsersLoop m ss =
      ss ++ concat (m.map (fun kvp => presenceEntry kvp.2)) := by
  induction m with
  | nil => intro ss; simp [GetOnlineUsersLoop, concat]
  | cons e rest ih =>
    intro ss
    unfold GetOnlineUsersLoop
    rw [ih]
    simp [concat, presenceEntry, String.append_assoc]

theorem not_digit_semicolon : ¬ IsDigitChar ';' := by unfold IsDigitChar; decide

theorem presenceEntry_count (ci : ClientInfo) : (presenceEntry ci).data.count ';' = 1 := by
  have h1 : (IpToString ci.Ip).data.count ';' = 0 := by
    rw [List.count_eq_zero]
    intro hmem
    rcases IpToString_chars _ _ hmem with h | h
    · exact not_digit_semicolon h
    · exact absurd h (by decide)
  have h2 : (to_string_int ci.Fd).data.count ';' = 0 := by
    rw [List.count_eq_zero]
    intro hmem
    rcases to_string_int_chars _ _ hmem with h | h
    · exact not_digit_semicolon h
    · exact absurd h (by decide)
  simp only [presenceEntry, String.data_append, List.count_append, h1, h2]
  decide

theorem concat_presence_count (m : Registry) :
    (concat (m.map (fun kvp => presenceEntry kvp.2))).data.count ';' = m.length := by
  induction m with
  | nil => simp [concat]
  | cons e rest ih =>
    simp only [List.map_cons, concat, String.data_append, List.count_append, ih,
      presenceEntry_count, List.length_cons]
    omega

theorem presenceEntry_getLast (ci : ClientInfo) :
    (presenceEntry ci).data.getLast? = some ';' := by
  simp only [presenceEntry, String.data_append]
  rw [List.getLast?_append_of_ne_nil _ (by decide)]
  rfl

theorem concat_presence_getLast (m : Registry) (h : m ≠ []) :
    (concat (m.map (fun kvp => presenceEntry kvp.2))).data.getLast? = some ';' := by
  induction m with
  | nil => exact absurd rfl h
  | cons e rest ih =>
    by_cases hr : rest = []
    · subst hr
      simp only [List.map_cons, List.map_nil, concat, String.append_empty]
      exact presenceEntry_getLast e.2
    · have ih1 := ih hr
      simp only [List.map_cons, concat, String.data_append]
      have hne : (concat (List.map (fun kvp => presenceEntry kvp.2) rest)).data ≠ [] := by
        intro h0
        rw [h0] at ih1
        simp at ih1
      rw [List.getLast?_append_of_ne_nil _ hne]
      exact ih1

/-! ## Formatting -/

theorem StringFormat_timestamp (clock : Option String) :
    StringFormat "[%s]  " [FormatArg.str (GetTime clock)] = "[" ++ GetTime clock ++ "]  " := by
  apply String.ext
  simp [StringFormat, vformat, c_str_GetTime]

theorem StringFormat_sender (Ip : Nat) (fd : Int) :
    StringFormat "%s (%i)" [FormatArg.str (IpToString Ip), FormatArg.int fd] = senderTag Ip fd := by
  apply String.ext
  simp [StringFormat, vformat, c_str_IpToString, senderTag]

theorem size_sub_of_le (n : Nat) (h : n ≤ 22) : size_sub 22 n = 22 - n := by
  simp only [size_sub, Nat.reducePow]
  omega

theorem size_sub_of_gt (n : Nat) (h : 22 < n) (hn : n < 2 ^ 64) :
    size_sub 22 n = 2 ^ 64 + 22 - n := by
  simp only [size_sub, Nat.reducePow] at *
  omega

theorem insert_end_of_le (s : String) (h : s.length ≤ 22) :
    insert_end s (size_sub 22 s.length) ' ' = Except.ok (s ++ spaces (22 - s.length)) := by
  unfold insert_end
  rw [size_sub_of_le _ h]
  have : ¬ (max_size - s.length < 22 - s.length) := by
    simp only [max_size, Nat.reducePow]
    omega
  rw [if_neg this]
  rfl

theorem insert_end_of_gt (s : String) (h : 22 < s.length) (hn : s.length < 2 ^ 64) :
    insert_end s (size_sub 22 s.length) ' ' = Except.error Fatal.length_error := by
  unfold insert_end
  rw [size_sub_of_gt _ h hn]
  have : max_size - s.length < 2 ^ 64 + 22 - s.length := by
    simp only [max_size, Nat.reducePow] at *
    omega
  rw [if_pos this]

theorem CreateMessage_of_le (clock : Option String) (whoFd : Int) (msg : String) (s : Server)
    (ci : ClientInfo) (hreg : mapFind s.ClientInfoByFd whoFd = some ci)
    (hlen : (senderTag ci.Ip whoFd).length ≤ 22) :
    CreateMessage clock whoFd msg s =
      Except.ok ("[" ++ GetTime clock ++ "]  " ++
        (senderTag ci.Ip whoFd ++ spaces (22 - (senderTag ci.Ip whoFd).length)) ++ " | " ++ msg, s) := by
  unfold CreateMessage
  have hc : ¬ mapCount s.ClientInfoByFd whoFd = 0 := by simp [mapCount, hreg]
  rw [if_neg hc]
  simp only [mapAt_of_find _ _ _ hreg, StringFormat_timestamp, StringFormat_sender,
    insert_end_of_le _ hlen]

theorem CreateMessage_of_gt (clock : Option String) (whoFd : Int) (msg : String) (s : Server)
    (ci : ClientInfo) (hreg : mapFind s.ClientInfoByFd whoFd = some ci)
    (hlen : 22 < (senderTag ci.Ip whoFd).length) (hn : (senderTag ci.Ip whoFd).length < 2 ^ 64) :
    CreateMessage clock whoFd msg s = Except.error Fatal.length_error := by
  unfold CreateMessage
  have hc : ¬ mapCount s.ClientInfoByFd whoFd = 0 := by simp [mapCount, hreg]
  rw [if_neg hc]
  simp only [mapAt_of_find _ _ _ hreg, StringFormat_timestamp, StringFormat_sender,
    insert_end_of_gt _ hlen hn]

/-! ## Claims on formatting and multicast -/

/-- C3: with `t = GetTime clock`, for a registered handle whose sender tag has at most 22
characters (so for every length from 1 to 22), `CreateMessage` returns the timestamp prefix, the tag, `22 - length tag`
spaces, the separator and the text, and leaves the state alone; the separator starts at
offset `length t + 4 + 22` of the result. -/
theorem CreateMessage_pads_sender (clock : Option String) (whoFd : Int) (msg : String)
    (s : Server) (ci : ClientInfo) (hreg : mapFind s.ClientInfoByFd whoFd = some ci)
    (hlen : (senderTag ci.Ip whoFd).length ≤ 22) :
    CreateMessage clock whoFd msg s =
        Except.ok ("[" ++ GetTime clock ++ "]  " ++
          (senderTag ci.Ip whoFd ++ spaces (22 - (senderTag ci.Ip whoFd).length)) ++ " | " ++ msg, s)
      ∧ ("[" ++ GetTime clock ++ "]  " ++
          (senderTag ci.Ip whoFd ++ spaces (22 - (senderTag ci.Ip whoFd).length)) ++ " | " ++ msg).data.drop
            ((GetTime clock).length + 4 + 22) = (" | " ++ msg).data := by
  refine ⟨CreateMessage_of_le clock whoFd msg s ci hreg hlen, ?_⟩
  have hl : ("[" ++ GetTime clock ++ "]  " ++
      (senderTag ci.Ip whoFd ++ spaces (22 - (senderTag ci.Ip whoFd).length))).data.length
        = (GetTime clock).length + 4 + 22 := by
    simp only [String.data_append, List.length_append, spaces, List.length_replicate]
    have h1 : ("[" : String).data.length = 1 := rfl
    have h2 : ("]  " : String).data.length = 3 := rfl
    have h3 : (senderTag ci.Ip whoFd).data.length = (senderTag ci.Ip whoFd).length := rfl
    have h4 : (GetTime clock).data.length = (GetTime clock).length := rfl
    rw [h1, h2, h3, h4]
    omega
  have key : ∀ P : String,
      (P ++ " | " ++ msg).data.drop P.data.length = (" | " ++ msg).data := by
    intro P
    rw [String.append_assoc, String.data_append]
    exact List.drop_left _ _
  rw [← hl]
  exact key _

/-- Concrete instance of C3: handle 5 at 127.0.0.1, tag of 13 characters. -/
theorem CreateMessage_pads_sender_witness :
    CreateMessage (some "12:00:01") 5 "hi"
        { ClientInfoByFd := [(5, { Ip := 0x0100007F, Fd := 5 })], epoll := [3, 5], trace := [] } =
        Except.ok ("[" ++ GetTime (some "12:00:01") ++ "]  " ++
          (senderTag 0x0100007F 5 ++ spaces (22 - (senderTag 0x0100007F 5).length)) ++ " | " ++ "hi",
          { ClientInfoByFd := [(5, { Ip := 0x0100007F, Fd := 5 })], epoll := [3, 5], trace := [] })
      ∧ ("[" ++ GetTime (some "12:00:01") ++ "]  " ++
          (senderTag 0x0100007F 5 ++ spaces (22 - (senderTag 0x0100007F 5).length)) ++ " | " ++ "hi").data.drop
            ((GetTime (some "12:00:01")).length + 4 + 22) = (" | " ++ "hi").data :=
  CreateMessage_pads_sender (some "12:00:01") 5 "hi"
    { ClientInfoByFd := [(5, { Ip := 0x0100007F, Fd := 5 })], epoll := [3, 5], trace := [] }
    { Ip := 0x0100007F, Fd := 5 } (by rfl) (by decide)

/-- C4, the code at the failing input: for the session 192.168.100.100 with handle 10000
(tag of 23 characters) the padding count `22 - 23` wraps to `2^64 - 1` and `CreateMessage`
ends in an uncaught `std::length_error` instead of returning an unpadded message. -/
theorem CreateMessage_long_tag_throws :
    (senderTag 0x6464A8C0 10000).length = 23
      ∧ size_sub 22 (senderTag 0x6464A8C0 10000).length = 2 ^ 64 - 1
      ∧ CreateMessage (some "12:00:01") 10000 "hi"
          { ClientInfoByFd := [(10000, { Ip := 0x6464A8C0, Fd := 10000 })],
            epoll := [3, 10000], trace := [] }
        = Except.error Fatal.length_error :=
  ⟨by decide, by decide, by rfl⟩

/-- C2, the code at the failing input: a two-byte chunk read from the registered handle
10000 of the session 192.168.100.100 ends the process with an uncaught
`std::length_error`; nothing is sent. -/
theorem readBranch_long_tag_throws :
    readBranch { okKernel with recv := 2, buffer := "hi" } 10000
        { ClientInfoByFd := [(10000, { Ip := 0x6464A8C0, Fd := 10000 })],
          epoll := [3, 10000], trace := [] }
      = Except.error Fatal.length_error := by
  rfl

/-- C5: `GetOnlineUsers` returns the byte 0x07 followed by the entries
`IpToString(Ip) ++ "/" ++ decimal(Fd) ++ ";"` of the sessions in iteration order, which is
ascending handle order, with nothing in between. The empty registry gives the single
byte; a registry of N sessions gives N semicolons and, when N > 0, a final semicolon. -/
theorem GetOnlineUsers_frame (m : Registry) (hwf : WellFormed m) :
    GetOnlineUsers m =
        String.mk [Char.ofNat 0x07] ++ concat (m.map (fun kvp => presenceEntry kvp.2))
      ∧ (m.map Prod.fst).Pairwise (fun a b => a < b)
      ∧ GetOnlineUsers [] = String.mk [Char.ofNat 0x07]
      ∧ (GetOnlineUsers m).data.count ';' = m.length
      ∧ (0 < m.length → (GetOnlineUsers m).data.getLast? = some ';') := by
  have h1 : GetOnlineUsers m =
      String.mk [Char.ofNat 0x07] ++ concat (m.map (fun kvp => presenceEntry kvp.2)) :=
    GetOnlineUsersLoop_eq m _
  refine ⟨h1, hwf, rfl, ?_, ?_⟩
  · rw [h1, String.data_append, List.count_append, concat_presence_count]
    have : List.count ';' (String.mk [Char.ofNat 0x07]).data = 0 := by decide
    omega
  · intro hpos
    have hne : m ≠ [] := by
      intro h0
      rw [h0] at hpos
      exact Nat.lt_irrefl 0 hpos
    have hl := concat_presence_getLast m hne
    have hne2 : (concat (m.map (fun kvp => presenceEntry kvp.2))).data ≠ [] := by
      intro h0
      rw [h0] at hl
      simp at hl
    rw [h1, String.data_append, List.getLast?_append_of_ne_nil _ hne2]
    exact hl

/-- Concrete instance of C5: two sessions, handles 5 and 6. -/
theorem GetOnlineUsers_frame_witness :
    GetOnlineUsers [(5, { Ip := 0x0100007F, Fd := 5 }), (6, { Ip := 0x6464A8C0, Fd := 6 })] =
        String.mk [Char.ofNat 0x07] ++
          concat ([(5, { Ip := 0x0100007F, Fd := 5 }), (6, { Ip := 0x6464A8C0, Fd := 6 })].map
            (fun kvp : Int × ClientInfo => presenceEntry kvp.2))
      ∧ ([(5, { Ip := 0x0100007F, Fd := 5 }), (6, { Ip := 0x6464A8C0, Fd := 6 })].map
            (Prod.fst : Int × ClientInfo → Int)).Pairwise (fun a b => a < b)
      ∧ GetOnlineUsers [] = String.mk [Char.ofNat 0x07]
      ∧ (GetOnlineUsers [(5, { Ip := 0x0100007F, Fd := 5 }),
            (6, { Ip := 0x6464A8C0, Fd := 6 })]).data.count ';' =
          [(5, ({ Ip := 0x0100007F, Fd := 5 } : ClientInfo)),
            ((6 : Int), { Ip := 0x6464A8C0, Fd := 6 })].length
      ∧ (0 < [((5 : Int), ({ Ip := 0x0100007F, Fd := 5 } : ClientInfo)),
            (6, { Ip := 0x6464A8C0, Fd := 6 })].length →
          (GetOnlineUsers [(5, { Ip := 0x0100007F, Fd := 5 }),
            (6, { Ip := 0x6464A8C0, Fd := 6 })]).data.getLast? = some ';') :=
  GetOnlineUsers_frame [(5, { Ip := 0x0100007F, Fd := 5 }), (6, { Ip := 0x6464A8C0, Fd := 6 })]
    (by decide)

/-- C6: whatever the kernel returns for each `send`, `SendMulticast(msg, x)` with a valid
excluded handle `x` (not `-1`) attempts one send of `msg` to each registered handle other
than `x`, in key order, each handle once and none to `x`; with `-1` it attempts one send
to every registered handle, each once. The registry and the interest list are unchanged. -/
theorem SendMulticast_attempts (k : Kernel) (msg : String) (x : Int) (s : Server)
    (hx : x ≠ -1) (hwf : WellFormed s.ClientInfoByFd) :
    (SendMulticast k msg x s).trace =
        s.trace ++ sends ((keys s.ClientInfoByFd).filter (fun fd => decide (fd ≠ x))) msg
      ∧ ((keys s.ClientInfoByFd).filter (fun fd => decide (fd ≠ x))).Nodup
      ∧ (∀ fd, fd ∈ (keys s.ClientInfoByFd).filter (fun fd => decide (fd ≠ x)) ↔
          fd ∈ keys s.ClientInfoByFd ∧ fd ≠ x)
      ∧ (SendMulticast k msg x s).ClientInfoByFd = s.ClientInfoByFd
      ∧ (SendMulticast k msg x s).epoll = s.epoll
      ∧ (SendMulticast k msg (-1) s).trace = s.trace ++ sends (keys s.ClientInfoByFd) msg
      ∧ (keys s.ClientInfoByFd).Nodup
      ∧ (SendMulticast k msg (-1) s).ClientInfoByFd = s.ClientInfoByFd
      ∧ (SendMulticast k msg (-1) s).epoll = s.epoll := by
  have hnd := wellFormed_nodup _ hwf
  rw [SendMulticast_except k msg x hx s, SendMulticast_all k msg s]
  refine ⟨rfl, hnd.filter _, ?_, rfl, rfl, rfl, hnd, rfl, rfl⟩
  intro fd
  simp [List.mem_filter]

/-- Concrete instance of C6: three sessions, the middle one excluded, every send failing. -/
theorem SendMulticast_attempts_witness :
    (SendMulticast { okKernel with sendResult := fun _ => -1 } "m" 6
        { ClientInfoByFd := [(5, { Ip := 1, Fd := 5 }), (6, { Ip := 2, Fd := 6 }),
            (7, { Ip := 3, Fd := 7 })], epoll := [3, 5, 6, 7], trace := [] }).trace
      = [Action.send 5 "m", Action.send 7 "m"] :=
  (SendMulticast_attempts { okKernel with sendResult := fun _ => -1 } "m" 6
    { ClientInfoByFd := [(5, { Ip := 1, Fd := 5 }), (6, { Ip := 2, Fd := 6 }),
        (7, { Ip := 3, Fd := 7 })], epoll := [3, 5, 6, 7], trace := [] }
    (by decide) (by decide)).1

/-! ## The branches of the dispatch loop -/

theorem server_padded :
    insert_end "SERVER" (size_sub 22 "SERVER".length) ' ' = Except.ok ("SERVER" ++ spaces 16) := by
  rfl

theorem SendGreetingLoop_core (k : Kernel) (ts server : String) (toWho : Int)
    (lines : List String) :
    ∀ s : Server, (SendGreetingLoop k ts server toWho lines s).ClientInfoByFd = s.ClientInfoByFd
      ∧ (SendGreetingLoop k ts server toWho lines s).epoll = s.epoll := by
  induction lines with
  | nil => intro s; exact ⟨rfl, rfl⟩
  | cons line rest ih =>
    intro s
    unfold SendGreetingLoop
    simp only
    split
    · exact ⟨rfl, rfl⟩
    · exact ih _

theorem SendGreetingLoop_all_sent (k : Kernel) (hsend : ∀ n, k.sendResult n ≠ -1)
    (ts server : String) (toWho : Int) (lines : List String) :
    ∀ s : Server, SendGreetingLoop k ts server toWho lines s =
      { s with trace := s.trace ++
          lines.map (fun line => Action.send toWho (ts ++ server ++ " | " ++ line)) } := by
  induction lines with
  | nil => intro s; simp [SendGreetingLoop]
  | cons line rest ih =>
    intro s
    unfold SendGreetingLoop
    simp only
    rw [if_neg (by exact hsend _), ih]
    simp [send, record]

theorem SendGreetingLoop_registry (k : Kernel) (ts server : String) (toWho : Int)
    (lines : List String) (s : Server) :
    (SendGreetingLoop k ts server toWho lines s).ClientInfoByFd = s.ClientInfoByFd :=
  (SendGreetingLoop_core k ts server toWho lines s).1

theorem SendGreetingLoop_epoll (k : Kernel) (ts server : String) (toWho : Int)
    (lines : List String) (s : Server) :
    (SendGreetingLoop k ts server toWho lines s).epoll = s.epoll :=
  (SendGreetingLoop_core k ts server toWho lines s).2

theorem acceptBranch_ok (k : Kernel) (s s1 : Server) (h : acceptBranch k s = Except.ok s1) :
    k.accept ∉ s.epoll
      ∧ s1.ClientInfoByFd = mapAssign s.ClientInfoByFd k.accept { Ip := k.s_addr, Fd := k.accept }
      ∧ s1.epoll = s.epoll ++ [k.accept] := by
  unfold acceptBranch at h
  by_cases hacc : k.accept = -1
  · simp [bind, Except.bind, CheckError, hacc] at h
  by_cases hget : k.getfl = -1
  · simp [bind, Except.bind, CheckError, SetNonblock, hacc, hget] at h
  by_cases hset : k.setfl = -1
  · simp [bind, Except.bind, CheckError, SetNonblock, hacc, hget, hset] at h
  simp only [bind, Except.bind, CheckError, SetNonblock, SendGreeting, server_padded,
    pure, Except.pure, beq_iff_eq, hacc, hget, hset, if_false, SendMulticast_eq, record,
    SendGreetingLoop_registry, SendGreetingLoop_epoll, epoll_ctl_add] at h
  by_cases hin : k.accept ∈ s.epoll ∨ k.epollResources = false
  · simp [hin] at h
  · rw [if_neg hin] at h
    rw [if_neg (by decide : ¬ ((0 : Int) = -1))] at h
    injection h with h
    subst h
    exact ⟨fun hc => hin (Or.inl hc), rfl, rfl⟩

theorem mapFind_of_mem_keys (m : Registry) (k : Int) (h : k ∈ keys m) :
    ∃ v, mapFind m k = some v := by
  cases hf : mapFind m k with
  | none => exact absurd h ((mapFind_eq_none_iff m k).mp hf)
  | some v => exact ⟨v, rfl⟩

theorem CreateMessage_state (clock : Option String) (whoFd : Int) (msg : String)
    (s : Server) (r : String × Server) (h : CreateMessage clock whoFd msg s = Except.ok r) :
    r.2 = s := by
  unfold CreateMessage at h
  by_cases hc : mapCount s.ClientInfoByFd whoFd = 0
  · rw [if_pos hc] at h
    injection h with h
    rw [← h]
  · rw [if_neg hc] at h
    obtain ⟨v, hv⟩ := mapFind_of_mem_keys _ _ ((mapCount_ne_zero_iff _ _).mp hc)
    simp only [mapAt_of_find _ _ _ hv] at h
    split at h
    · exact Except.noConfusion h
    · have h2 := Except.ok.inj h
      rw [← h2]

theorem mapAt_wellFormed (m : Registry) (k : Int) (h : WellFormed m) :
    WellFormed (mapAt m k).1 := by
  unfold mapAt
  cases mapFind m k with
  | none => exact wellFormed_mapAssign m k _ h
  | some v => exact h

theorem mem_keys_mapAt (m : Registry) (k : Int) (x : Int) :
    x ∈ keys (mapAt m k).1 ↔ x = k ∨ x ∈ keys m := by
  unfold mapAt
  cases hf : mapFind m k with
  | none => exact mem_keys_mapAssign m k _ x
  | some v =>
    have hk : k ∈ keys m := by
      by_contra hk
      rw [(mapFind_eq_none_iff m k).mpr hk] at hf
      exact Option.noConfusion hf
    constructor
    · intro hx; exact Or.inr hx
    · rintro (rfl | hx)
      · exact hk
      · exact hx

theorem readBranch_ok (k : Kernel) (fd : Int) (s s1 : Server)
    (h : readBranch k fd s = Except.ok s1) :
    (fd ∈ s.epoll ∧ s1.ClientInfoByFd = mapErase (mapAt s.ClientInfoByFd fd).1 fd
        ∧ s1.epoll = s.epoll.erase fd)
      ∨ (s1.ClientInfoByFd = s.ClientInfoByFd ∧ s1.epoll = s.epoll) := by
  unfold readBranch at h
  by_cases hz : k.recv = 0 ∧ k.errnoEAGAIN = false
  · left
    simp only [hz, and_self, if_true, bind, Except.bind, CheckError, pure, Except.pure,
      SendMulticast_eq, record, epoll_ctl_del, CloseConnection, beq_iff_eq] at h
    by_cases hin : fd ∉ s.epoll ∨ k.epollResources = false
    · simp [hin] at h
    · rw [if_neg hin] at h
      rw [if_neg (by decide : ¬ ((0 : Int) = -1))] at h
      injection h with h
      subst h
      exact ⟨by_contra (fun hc => hin (Or.inl hc)), rfl, rfl⟩
  · right
    simp only [hz, if_false] at h
    by_cases hp : k.recv > 0
    · simp only [hp, if_true] at h
      split at h
      · exact Except.noConfusion h
      · rename_i r hr
        have hs := CreateMessage_state _ _ _ _ _ hr
        injection h with h
        subst h
        rw [SendMulticast_eq, hs]
        exact ⟨rfl, rfl⟩
    · simp only [hp, if_false] at h
      injection h with h
      subst h
      exact ⟨rfl, rfl⟩

theorem Inv_init (masterSocket : Int) : Inv masterSocket (init masterSocket) := by
  refine ⟨?_, ?_, ?_, ?_⟩
  · simp [init, WellFormed, keys]
  · simp [init]
  · simp [init]
  · intro fd
    simp [init, keys, clientHandles]

theorem Inv_dispatch (masterSocket fd : Int) (k : Kernel) (s s1 : Server)
    (hinv : Inv masterSocket s) (h : dispatch masterSocket fd k s = Except.ok s1) :
    Inv masterSocket s1 := by
  obtain ⟨hwf, hms, hnd, hkeys⟩ := hinv
  unfold dispatch at h
  by_cases hfd : fd = masterSocket
  · rw [if_pos hfd] at h
    obtain ⟨hnew, hreg, hep⟩ := acceptBranch_ok k s s1 h
    have hne : k.accept ≠ masterSocket := fun hc => hnew (hc ▸ hms)
    refine ⟨?_, ?_, ?_, ?_⟩
    · rw [hreg]; exact wellFormed_mapAssign _ _ _ hwf
    · rw [hep]; exact List.mem_append_left _ hms
    · rw [hep]
      refine List.Nodup.append hnd (List.nodup_singleton _) ?_
      intro x hx hx1
      rw [List.mem_singleton] at hx1
      exact hnew (hx1 ▸ hx)
    · intro x
      rw [hreg, mem_keys_mapAssign, hkeys x]
      simp only [clientHandles, List.mem_filter, hep, List.mem_append, List.mem_singleton,
        decide_eq_true_eq]
      constructor
      · rintro (rfl | ⟨hx, hxm⟩)
        · exact ⟨Or.inr rfl, hne⟩
        · exact ⟨Or.inl hx, hxm⟩
      · rintro ⟨hx | rfl, hxm⟩
        · exact Or.inr ⟨hx, hxm⟩
        · exact Or.inl rfl
  · rw [if_neg hfd] at h
    rcases readBranch_ok k fd s s1 h with ⟨hin, hreg, hep⟩ | ⟨hreg, hep⟩
    · refine ⟨?_, ?_, ?_, ?_⟩
      · rw [hreg]; exact wellFormed_mapErase _ _ (mapAt_wellFormed _ _ hwf)
      · rw [hep]; exact (List.mem_erase_of_ne (fun hc => hfd hc.symm)).mpr hms
      · rw [hep]; exact hnd.erase _
      · intro x
        rw [hreg, mem_keys_mapErase _ _ (mapAt_wellFormed _ _ hwf), mem_keys_mapAt, hkeys x]
        simp only [clientHandles, List.mem_filter, hep, hnd.mem_erase_iff, decide_eq_true_eq]
        constructor
        · rintro ⟨rfl | ⟨hx, hxm⟩, hne⟩
          · exact absurd rfl hne
          · exact ⟨⟨hne, hx⟩, hxm⟩
        · rintro ⟨⟨hne, hx⟩, hxm⟩
          exact ⟨Or.inr ⟨hx, hxm⟩, hne⟩
    · refine ⟨by rw [hreg]; exact hwf, by rw [hep]; exact hms, by rw [hep]; exact hnd, ?_⟩
      intro x
      rw [hreg]
      simp only [clientHandles, hep]
      exact hkeys x

theorem Inv_run (masterSocket : Int) (evs : List (Int × Kernel)) :
    ∀ s s1 : Server, Inv masterSocket s → run masterSocket evs s = Except.ok s1 →
      Inv masterSocket s1 := by
  induction evs with
  | nil =>
    intro s s1 hinv h
    unfold run at h
    injection h with h
    rw [← h]
    exact hinv
  | cons ev rest ih =>
    intro s s1 hinv h
    unfold run at h
    split at h
    · exact Except.noConfusion h
    · rename_i s2 hd
      exact ih s2 s1 (Inv_dispatch masterSocket ev.1 ev.2 s s2 hinv hd) h

/-! ## Claim on the registry invariant -/

/-- C1: start the dispatch loop from the empty registry with only the listening socket
registered and process any finite sequence of readiness events, with arbitrary answers of
the kernel (accepts, peer-closed reads, positive-length reads, would-block or negative
reads). Whenever the process is still running afterwards, the keys of the registry are
exactly the client handles registered with epoll, and neither holds a handle twice. Every
prefix of a sequence is a sequence, so this holds after each step. -/
theorem registry_keys_eq_epoll_clients (masterSocket : Int) (evs : List (Int × Kernel))
    (s : Server) (h : run masterSocket evs (init masterSocket) = Except.ok s) :
    (∀ fd, fd ∈ keys s.ClientInfoByFd ↔ fd ∈ clientHandles masterSocket s)
      ∧ (keys s.ClientInfoByFd).Nodup ∧ (clientHandles masterSocket s).Nodup := by
  obtain ⟨hwf, _, hnd, hkeys⟩ := Inv_run masterSocket evs _ s (Inv_init masterSocket) h
  exact ⟨hkeys, wellFormed_nodup _ hwf, hnd.filter _⟩

/-! ## Normal forms of the accept and disconnect branches -/

theorem NoNul_append (a b : String) (ha : NoNul a) (hb : NoNul b) : NoNul (a ++ b) := by
  intro c hc
  rw [String.data_append, List.mem_append] at hc
  rcases hc with hc | hc
  · exact ha c hc
  · exact hb c hc

theorem NoNul_IpToString (addr : Nat) : NoNul (IpToString addr) := by
  intro c hc h0
  subst h0
  rcases IpToString_chars addr _ hc with h | h
  · exact not_digit_nul h
  · exact absurd h (by decide)

theorem NoNul_to_string_int (i : Int) : NoNul (to_string_int i) := by
  intro c hc h0
  subst h0
  rcases to_string_int_chars i _ hc with h | h
  · exact not_digit_nul h
  · exact absurd h (by decide)

theorem NoNul_GetTime (clock : Option String) : NoNul (GetTime clock) := by
  cases clock with
  | none => intro c hc; simp [GetTime] at hc
  | some tmBuf => exact c_str_no_nul tmBuf

theorem userConnectedMsg_eq (clock : Option String) (addr : Nat) (client : Int) :
    userConnectedMsg clock (IpToString addr) client =
      "[" ++ GetTime clock ++ "]  " ++ "SERVER" ++ " | " ++ (senderTag addr client ++ " connected") := by
  apply String.ext
  simp [userConnectedMsg, StringFormat, vformat, c_str_GetTime, c_str_IpToString, senderTag]

theorem userDisconnectedMsg_eq (clock : Option String) (addr : Nat) (fd : Int) :
    userDisconnectedMsg clock addr fd =
      "[" ++ GetTime clock ++ "]  " ++ "SERVER" ++ " | " ++ (senderTag addr fd ++ " disconnected") := by
  apply String.ext
  simp [userDisconnectedMsg, StringFormat, vformat, c_str_GetTime, c_str_IpToString, senderTag]

theorem NoNul_senderTag (addr : Nat) (fd : Int) : NoNul (senderTag addr fd) := by
  unfold senderTag
  refine NoNul_append _ _ (NoNul_append _ _ (NoNul_append _ _ (NoNul_IpToString _) ?_)
    (NoNul_to_string_int _)) ?_
  · intro c hc; revert c; decide
  · intro c hc; revert c; decide

theorem NoNul_announcement (clock : Option String) (addr : Nat) (fd : Int) (what : String)
    (hw : NoNul what) :
    NoNul ("[" ++ GetTime clock ++ "]  " ++ "SERVER" ++ " | " ++ (senderTag addr fd ++ what)) := by
  have hl : ∀ l : String, (∀ c ∈ l.data, c ≠ Char.ofNat 0) → NoNul l := fun _ h => h
  refine NoNul_append _ _ (NoNul_append _ _ (NoNul_append _ _ (NoNul_append _ _
    (NoNul_append _ _ (hl _ (by decide)) (NoNul_GetTime _)) (hl _ (by decide)))
    (hl _ (by decide))) (hl _ (by decide))) (NoNul_append _ _ (NoNul_senderTag _ _) hw)

theorem StringFormat_line (msg : String) (h : NoNul msg) :
    StringFormat "%s\n" [FormatArg.str msg] = msg ++ "\n" := by
  apply String.ext
  simp [StringFormat, vformat, c_str_eq_data msg h]

theorem keys_filter_mapAssign (m : Registry) (k : Int) (v : ClientInfo) (h : k ∉ keys m) :
    (keys (mapAssign m k v)).filter (fun fd => decide (fd ≠ k)) = keys m := by
  have h1 := mapAssign_filter_of_not_mem m k v h
  unfold keys
  rw [List.filter_map]
  exact congrArg (List.map Prod.fst) h1

theorem acceptBranch_eq (k : Kernel) (s : Server)
    (hacc : k.accept ≠ -1) (hget : k.getfl ≠ -1) (hset : k.setfl ≠ -1)
    (hsend : ∀ n, k.sendResult n ≠ -1) (hnew : k.accept ∉ keys s.ClientInfoByFd)
    (hepoll : k.accept ∉ s.epoll) (hres : k.epollResources = true) :
    acceptBranch k s = Except.ok
      { ClientInfoByFd := mapAssign s.ClientInfoByFd k.accept { Ip := k.s_addr, Fd := k.accept },
        epoll := s.epoll ++ [k.accept],
        trace := s.trace ++ [Action.set_nonblock k.accept]
          ++ Greeting.map (fun line =>
              Action.send k.accept (greetingFrame (GetTime k.clockGreeting) line))
          ++ [Action.insert k.accept { Ip := k.s_addr, Fd := k.accept }]
          ++ sends (keys (mapAssign s.ClientInfoByFd k.accept { Ip := k.s_addr, Fd := k.accept }))
              (GetOnlineUsers
                (mapAssign s.ClientInfoByFd k.accept { Ip := k.s_addr, Fd := k.accept }))
          ++ [Action.printf ("[" ++ GetTime k.clock ++ "]  " ++ "SERVER" ++ " | " ++
              (senderTag k.s_addr k.accept ++ " connected") ++ "\n")]
          ++ sends (keys s.ClientInfoByFd)
              ("[" ++ GetTime k.clock ++ "]  " ++ "SERVER" ++ " | " ++
                (senderTag k.s_addr k.accept ++ " connected"))
          ++ [Action.epoll_add k.accept] } := by
  have hin : ¬ (k.accept ∈ s.epoll ∨ k.epollResources = false) := by
    rw [hres]
    simp [hepoll]
  have hnn : NoNul (" connected" : String) := by intro c hc; revert c; decide
  unfold acceptBranch
  simp only [bind, Except.bind, CheckError, SetNonblock, SendGreeting, server_padded,
    pure, Except.pure, beq_iff_eq, hacc, hget, hset, if_false, SendMulticast_all,
    SendMulticast_except _ _ _ hacc, record, SendGreetingLoop_all_sent k hsend,
    epoll_ctl_add, StringFormat_timestamp, userConnectedMsg_eq,
    StringFormat_line _ (NoNul_announcement _ _ _ _ hnn), keys_filter_mapAssign _ _ _ hnew]
  rw [if_neg hin, if_neg (by decide : ¬ ((0 : Int) = -1))]
  simp only [greetingFrame, List.append_assoc]

theorem readBranch_disconnect_eq (k : Kernel) (fd : Int) (s : Server) (ci : ClientInfo)
    (hreg : mapFind s.ClientInfoByFd fd = some ci) (hep : fd ∈ s.epoll)
    (hres : k.epollResources = true) (hrecv : k.recv = 0) (herr : k.errnoEAGAIN = false) :
    readBranch k fd s = Except.ok
      { ClientInfoByFd := mapErase s.ClientInfoByFd fd,
        epoll := s.epoll.erase fd,
        trace := s.trace
          ++ [Action.printf ("[" ++ GetTime k.clock ++ "]  " ++ "SERVER" ++ " | " ++
                (senderTag ci.Ip fd ++ " disconnected") ++ "\n"),
              Action.erase fd]
          ++ sends (keys (mapErase s.ClientInfoByFd fd))
              ("[" ++ GetTime k.clock ++ "]  " ++ "SERVER" ++ " | " ++
                (senderTag ci.Ip fd ++ " disconnected"))
          ++ sends (keys (mapErase s.ClientInfoByFd fd))
              (GetOnlineUsers (mapErase s.ClientInfoByFd fd))
          ++ [Action.epoll_del fd, Action.shutdown fd, Action.close fd] } := by
  have hin : ¬ (fd ∉ s.epoll ∨ k.epollResources = false) := by
    rw [hres]
    simp [hep]
  have hnn : NoNul (" disconnected" : String) := by intro c hc; revert c; decide
  unfold readBranch
  simp only [hrecv, herr, and_self, if_true, bind, Except.bind, CheckError, pure, Except.pure,
    SendMulticast_all, record, epoll_ctl_del, CloseConnection, beq_iff_eq,
    mapAt_of_find _ _ _ hreg, userDisconnectedMsg_eq,
    StringFormat_line _ (NoNul_announcement _ _ _ _ hnn)]
  rw [if_neg hin, if_neg (by decide : ¬ ((0 : Int) = -1))]
  simp only [List.append_assoc, List.cons_append, List.nil_append]

/-- Concrete instance of C1: the sample run of five events ends in `demoFinal`, where
handle 6 is the only key of the registry and the only client handle in the interest list. -/
theorem registry_keys_eq_epoll_clients_witness :
    (∀ fd, fd ∈ keys demoFinal.ClientInfoByFd ↔ fd ∈ clientHandles 3 demoFinal)
      ∧ (keys demoFinal.ClientInfoByFd).Nodup ∧ (clientHandles 3 demoFinal).Nodup :=
  registry_keys_eq_epoll_clients 3 demoEvents demoFinal (by rfl)

/-- The chat branch when the sender tag fits: for a registered handle whose tag has at
most 22 characters, a positive-length read sends the one string built by `CreateMessage`
to every registered handle and changes neither the registry nor the interest list. -/
theorem readBranch_chat_of_le (k : Kernel) (fd : Int) (s : Server) (ci : ClientInfo)
    (hreg : mapFind s.ClientInfoByFd fd = some ci)
    (hlen : (senderTag ci.Ip fd).length ≤ 22) (hrecv : 0 < k.recv) :
    readBranch k fd s = Except.ok
      { ClientInfoByFd := s.ClientInfoByFd,
        epoll := s.epoll,
        trace := s.trace ++ sends (keys s.ClientInfoByFd)
          ("[" ++ GetTime k.clock ++ "]  " ++
            (senderTag ci.Ip fd ++ spaces (22 - (senderTag ci.Ip fd).length)) ++ " | " ++
            String.mk (k.buffer.data.take k.recv.toNat)) } := by
  have hz : ¬ (k.recv = 0 ∧ k.errnoEAGAIN = false) := fun h => by omega
  unfold readBranch
  simp only [hz, if_false, gt_iff_lt, hrecv, if_true,
    CreateMessage_of_le k.clock fd _ s ci hreg hlen, SendMulticast_all]

/-! ## Claims on the accept and disconnect branches -/

/-- C7: for a well-formed registry R and an accepted handle c that is not in R and not in
the interest list, when `fcntl`, every `send` and `epoll_ctl` succeed, the accept branch
performs in this order: `SetNonblock(c)`; five sends to c, one greeting frame per line of
`Greeting`; the insertion of c with the remote address and c; one send of
`GetOnlineUsers` of the new registry to every handle of the new registry (the sessions of
R and c, each once); the log line; one send of the "connected" announcement naming the
address and c to every handle of R (so not to c); and the registration of c with epoll. -/
theorem acceptBranch_sequence (k : Kernel) (s : Server)
    (hwf : WellFormed s.ClientInfoByFd)
    (hacc : k.accept ≠ -1) (hget : k.getfl ≠ -1) (hset : k.setfl ≠ -1)
    (hsend : ∀ n, k.sendResult n ≠ -1) (hnew : k.accept ∉ keys s.ClientInfoByFd)
    (hepoll : k.accept ∉ s.epoll) (hres : k.epollResources = true) :
    acceptBranch k s = Except.ok
        { ClientInfoByFd := mapAssign s.ClientInfoByFd k.accept { Ip := k.s_addr, Fd := k.accept },
          epoll := s.epoll ++ [k.accept],
          trace := s.trace ++ [Action.set_nonblock k.accept]
            ++ Greeting.map (fun line =>
                Action.send k.accept (greetingFrame (GetTime k.clockGreeting) line))
            ++ [Action.insert k.accept { Ip := k.s_addr, Fd := k.accept }]
            ++ sends (keys (mapAssign s.ClientInfoByFd k.accept { Ip := k.s_addr, Fd := k.accept }))
                (GetOnlineUsers
                  (mapAssign s.ClientInfoByFd k.accept { Ip := k.s_addr, Fd := k.accept }))
            ++ [Action.printf ("[" ++ GetTime k.clock ++ "]  " ++ "SERVER" ++ " | " ++
                (senderTag k.s_addr k.accept ++ " connected") ++ "\n")]
            ++ sends (keys s.ClientInfoByFd)
                ("[" ++ GetTime k.clock ++ "]  " ++ "SERVER" ++ " | " ++
                  (senderTag k.s_addr k.accept ++ " connected"))
            ++ [Action.epoll_add k.accept] }
      ∧ Greeting.length = 5
      ∧ List.Perm (mapAssign s.ClientInfoByFd k.accept { Ip := k.s_addr, Fd := k.accept })
          ((k.accept, { Ip := k.s_addr, Fd := k.accept }) :: s.ClientInfoByFd)
      ∧ (keys (mapAssign s.ClientInfoByFd k.accept { Ip := k.s_addr, Fd := k.accept })).Nodup :=
  ⟨acceptBranch_eq k s hacc hget hset hsend hnew hepoll hres, rfl,
    mapAssign_perm _ _ _ hnew, wellFormed_nodup _ (wellFormed_mapAssign _ _ _ hwf)⟩

/-- Concrete instance of C7: handle 6 at 192.168.100.100 is accepted while handle 5 is
registered; both get the presence frame, only 5 gets the announcement. -/
theorem acceptBranch_sequence_witness :
    acceptBranch { okKernel with accept := 6, s_addr := 0x6464A8C0 } oneClient = Except.ok
      { ClientInfoByFd := [(5, { Ip := 0x0100007F, Fd := 5 }), (6, { Ip := 0x6464A8C0, Fd := 6 })],
        epoll := [3, 5, 6],
        trace :=
          [ Action.set_nonblock 6,
            Action.send 6 "[12:00:00]  SERVER                 | /=====================\\",
            Action.send 6 "[12:00:00]  SERVER                 | |                     |",
            Action.send 6 "[12:00:00]  SERVER                 | |       WELCOME       |",
            Action.send 6 "[12:00:00]  SERVER                 | |                     |",
            Action.send 6 "[12:00:00]  SERVER                 | \\=====================/",
            Action.insert 6 { Ip := 0x6464A8C0, Fd := 6 },
            Action.send 5 (String.mk [Char.ofNat 0x07] ++ "127.0.0.1/5;192.168.100.100/6;"),
            Action.send 6 (String.mk [Char.ofNat 0x07] ++ "127.0.0.1/5;192.168.100.100/6;"),
            Action.printf "[12:00:01]  SERVER | 192.168.100.100 (6) connected\n",
            Action.send 5 "[12:00:01]  SERVER | 192.168.100.100 (6) connected",
            Action.epoll_add 6 ] } :=
  (acceptBranch_sequence { okKernel with accept := 6, s_addr := 0x6464A8C0 } oneClient
    (by decide) (by decide) (by decide) (by decide) (by simp [okKernel]) (by decide)
    (by decide) rfl).1

/-- C8: for a well-formed registry R with h registered and h in a duplicate-free interest
list, a read on h that returns zero bytes without would-block leaves h absent from the
registry and from the interest list and every other entry unchanged; it logs the line,
erases the entry, sends the "disconnected" announcement naming the address of h and h to
every remaining handle, then `GetOnlineUsers` of the remaining registry to every remaining
handle, and only then deregisters, shuts down and closes h. Nothing is sent to h. -/
theorem readBranch_peer_closed (k : Kernel) (fd : Int) (s : Server) (ci : ClientInfo)
    (hwf : WellFormed s.ClientInfoByFd) (hnd : s.epoll.Nodup)
    (hreg : mapFind s.ClientInfoByFd fd = some ci) (hep : fd ∈ s.epoll)
    (hres : k.epollResources = true) (hrecv : k.recv = 0) (herr : k.errnoEAGAIN = false) :
    readBranch k fd s = Except.ok
        { ClientInfoByFd := mapErase s.ClientInfoByFd fd,
          epoll := s.epoll.erase fd,
          trace := s.trace
            ++ [Action.printf ("[" ++ GetTime k.clock ++ "]  " ++ "SERVER" ++ " | " ++
                  (senderTag ci.Ip fd ++ " disconnected") ++ "\n"),
                Action.erase fd]
            ++ sends (keys (mapErase s.ClientInfoByFd fd))
                ("[" ++ GetTime k.clock ++ "]  " ++ "SERVER" ++ " | " ++
                  (senderTag ci.Ip fd ++ " disconnected"))
            ++ sends (keys (mapErase s.ClientInfoByFd fd))
                (GetOnlineUsers (mapErase s.ClientInfoByFd fd))
            ++ [Action.epoll_del fd, Action.shutdown fd, Action.close fd] }
      ∧ fd ∉ keys (mapErase s.ClientInfoByFd fd)
      ∧ fd ∉ s.epoll.erase fd
      ∧ (∀ e, e ∈ mapErase s.ClientInfoByFd fd ↔ e ∈ s.ClientInfoByFd ∧ e.1 ≠ fd) := by
  refine ⟨readBranch_disconnect_eq k fd s ci hreg hep hres hrecv herr, ?_, ?_, ?_⟩
  · intro hmem
    exact ((mem_keys_mapErase _ _ hwf fd).mp hmem).2 rfl
  · intro hmem
    exact (hnd.mem_erase_iff.mp hmem).1 rfl
  · intro e
    rw [mapErase_eq_filter _ _ hwf, List.mem_filter, decide_eq_true_eq]

/-- Concrete instance of C8: the peer of handle 5 closes while handle 6 is registered. -/
theorem readBranch_peer_closed_witness :
    readBranch okKernel 5
        { ClientInfoByFd := [(5, { Ip := 0x0100007F, Fd := 5 }), (6, { Ip := 0x6464A8C0, Fd := 6 })],
          epoll := [3, 5, 6], trace := [] }
      = Except.ok
        { ClientInfoByFd := [(6, { Ip := 0x6464A8C0, Fd := 6 })],
          epoll := [3, 6],
          trace :=
            [ Action.printf "[12:00:01]  SERVER | 127.0.0.1 (5) disconnected\n",
              Action.erase 5,
              Action.send 6 "[12:00:01]  SERVER | 127.0.0.1 (5) disconnected",
              Action.send 6 (String.mk [Char.ofNat 0x07] ++ "192.168.100.100/6;"),
              Action.epoll_del 5,
              Action.shutdown 5,
              Action.close 5 ] } :=
  (readBranch_peer_closed okKernel 5
    { ClientInfoByFd := [(5, { Ip := 0x0100007F, Fd := 5 }), (6, { Ip := 0x6464A8C0, Fd := 6 })],
      epoll := [3, 5, 6], trace := [] }
    { Ip := 0x0100007F, Fd := 5 } (by decide) (by decide) rfl (by decide) rfl rfl rfl).1

/-! ## Claims the code answers differently -/

/-- C9 as stated fails: with the listening socket 3 ready and `accept` returning `-1`, the
dispatch step ends the process through `CheckError` instead of dropping the event. -/
theorem accept_failure_counterexample :
    dispatch 3 3 { okKernel with accept := -1 } (init 3)
      = Except.error (Fatal.exit "accept() failed!") := by
  rfl

/-- C9 amended: in every state, when the listening socket is ready and `accept` returns
`-1`, the dispatch step ends the process with `exit(EXIT_FAILURE)` after printing
"accept() failed!"; no later event is processed. -/
theorem accept_failure_exits (masterSocket : Int) (k : Kernel) (s : Server)
    (rest : List (Int × Kernel)) (h : k.accept = -1) :
    dispatch masterSocket masterSocket k s = Except.error (Fatal.exit "accept() failed!")
      ∧ run masterSocket ((masterSocket, k) :: rest) s
          = Except.error (Fatal.exit "accept() failed!") := by
  have hd : dispatch masterSocket masterSocket k s
      = Except.error (Fatal.exit "accept() failed!") := by
    unfold dispatch acceptBranch
    simp [bind, Except.bind, CheckError, h]
  refine ⟨hd, ?_⟩
  unfold run
  simp only [hd]

/-- Concrete instance of the amended C9: one session registered, `accept` fails, and the
chat event queued behind it is never processed. -/
theorem accept_failure_exits_witness :
    dispatch 3 3 { okKernel with accept := -1 } oneClient
        = Except.error (Fatal.exit "accept() failed!")
      ∧ run 3 ((3, { okKernel with accept := -1 }) ::
            [(5, { okKernel with recv := 2, buffer := "hi" })]) oneClient
          = Except.error (Fatal.exit "accept() failed!") :=
  accept_failure_exits 3 { okKernel with accept := -1 } oneClient
    [(5, { okKernel with recv := 2, buffer := "hi" })] rfl

/-- C10 as stated fails: when handle 6 at 192.168.100.100 joins at 12:00:01, the
announcement sent to handle 5 is "[12:00:01]  SERVER | 192.168.100.100 (6) connected";
its separator is not at offset 8 + 4 + 22, where the greeting frame has it, but at
offset 8 + 4 + 6. -/
theorem announcement_counterexample :
    userConnectedMsg (some "12:00:01") (IpToString 0x6464A8C0) 6
        = "[12:00:01]  SERVER | 192.168.100.100 (6) connected"
      ∧ (userConnectedMsg (some "12:00:01") (IpToString 0x6464A8C0) 6).data.drop (8 + 4 + 22)
        ≠ " | 192.168.100.100 (6) connected".data
      ∧ (userConnectedMsg (some "12:00:01") (IpToString 0x6464A8C0) 6).data.drop (8 + 4 + 6)
        = " | 192.168.100.100 (6) connected".data
      ∧ (greetingFrame "12:00:01" "|       WELCOME       |").data.drop (8 + 4 + 22)
        = " | |       WELCOME       |".data
      ∧ Except.map (fun s1 : Server => decide (Action.send 5
            "[12:00:01]  SERVER | 192.168.100.100 (6) connected" ∈ s1.trace))
          (acceptBranch { okKernel with accept := 6, s_addr := 0x6464A8C0 } oneClient)
        = Except.ok true :=
  ⟨by rfl, by decide, by rfl, by rfl, by rfl⟩

/-- C10 amended: the join and leave announcements are the timestamp prefix, the tag
`SERVER` without padding, the separator and the text `<addr> (<handle>) connected` or
`<addr> (<handle>) disconnected`; for every address and handle their separator begins at
offset `length t + 4 + 6`, while in a greeting frame it begins at `length t + 4 + 22`. -/
theorem announcement_layout (clock : Option String) (addr : Nat) (fd : Int) (line : String) :
    userConnectedMsg clock (IpToString addr) fd
        = "[" ++ GetTime clock ++ "]  " ++ "SERVER" ++ " | " ++ (senderTag addr fd ++ " connected")
      ∧ (userConnectedMsg clock (IpToString addr) fd).data.drop ((GetTime clock).length + 4 + 6)
        = (" | " ++ (senderTag addr fd ++ " connected")).data
      ∧ userDisconnectedMsg clock addr fd
        = "[" ++ GetTime clock ++ "]  " ++ "SERVER" ++ " | " ++ (senderTag addr fd ++ " disconnected")
      ∧ (userDisconnectedMsg clock addr fd).data.drop ((GetTime clock).length + 4 + 6)
        = (" | " ++ (senderTag addr fd ++ " disconnected")).data
      ∧ (greetingFrame (GetTime clock) line).data.drop ((GetTime clock).length + 4 + 22)
        = (" | " ++ line).data := by
  have key : ∀ (P text : String) (n : Nat), P.data.length = n →
      (P ++ " | " ++ text).data.drop n = (" | " ++ text).data := by
    intro P text n hn
    rw [String.append_assoc, String.data_append, ← hn]
    exact List.drop_left _ _
  have h6 : ("[" ++ GetTime clock ++ "]  " ++ "SERVER").data.length
      = (GetTime clock).length + 4 + 6 := by
    simp only [String.data_append, List.length_append]
    have h1 : ("[" : String).data.length = 1 := rfl
    have h2 : ("]  " : String).data.length = 3 := rfl
    have h3 : ("SERVER" : String).data.length = 6 := rfl
    have h4 : (GetTime clock).data.length = (GetTime clock).length := rfl
    rw [h1, h2, h3, h4]
    omega
  have h22 : ("[" ++ GetTime clock ++ "]  " ++ ("SERVER" ++ spaces 16)).data.length
      = (GetTime clock).length + 4 + 22 := by
    simp only [String.data_append, List.length_append]
    have h1 : ("[" : String).data.length = 1 := rfl
    have h2 : ("]  " : String).data.length = 3 := rfl
    have h3 : ("SERVER" : String).data.length = 6 := rfl
    have h4 : (GetTime clock).data.length = (GetTime clock).length := rfl
    have h5 : (spaces 16).data.length = 16 := rfl
    rw [h1, h2, h3, h4, h5]
    omega
  refine ⟨userConnectedMsg_eq clock addr fd, ?_, userDisconnectedMsg_eq clock addr fd, ?_, ?_⟩
  · rw [userConnectedMsg_eq]
    exact key _ _ _ h6
  · rw [userDisconnectedMsg_eq]
    exact key _ _ _ h6
  · unfold greetingFrame
    exact key _ _ _ h22

/-! ## Claims on repeated disconnects and on sentinel chunks -/

/-- A zero-byte read reported for a handle that is not in the interest list: the
branch runs up to `EPOLL_CTL_DEL`, which fails, and `CheckError` ends the process. -/
theorem readBranch_disconnect_unregistered (k : Kernel) (fd : Int) (s : Server)
    (hep : fd ∉ s.epoll) (hrecv : k.recv = 0) (herr : k.errnoEAGAIN = false) :
    readBranch k fd s = Except.error (Fatal.exit "Failed to delete fd from epoll!") := by
  unfold readBranch
  simp only [hrecv, herr, and_self, if_true, bind, Except.bind, CheckError, pure, Except.pure,
    SendMulticast_eq, record, epoll_ctl_del, beq_iff_eq]
  rw [if_pos (Or.inl hep)]
  rfl

/-- C12 as stated fails: a three-byte chunk read from handle 5 whose first byte is 0x07 is
formatted as chat and sent back to handle 5. -/
theorem sentinel_chunk_counterexample :
    readBranch { okKernel with recv := 3, buffer := String.mk [Char.ofNat 0x07, 'h', 'i'] } 5
        oneClient
      = Except.ok
        { ClientInfoByFd := [(5, { Ip := 0x0100007F, Fd := 5 })],
          epoll := [3, 5],
          trace := [Action.send 5
            ("[12:00:01]  127.0.0.1 (5)          | " ++ String.mk [Char.ofNat 0x07, 'h', 'i'])] } := by
  rfl

/-- C12 amended: the read branch does not look at the first byte. For a registered handle
whose sender tag has at most 22 characters, a chunk that starts with the sentinel 0x07 is
formatted by `CreateMessage` like any other chunk, sentinel included, and the result is
sent to every registered handle; the registry and the interest list are unchanged. -/
theorem sentinel_chunk_is_broadcast (k : Kernel) (fd : Int) (s : Server) (ci : ClientInfo)
    (rest : List Char) (hreg : mapFind s.ClientInfoByFd fd = some ci)
    (hlen : (senderTag ci.Ip fd).length ≤ 22) (hrecv : 0 < k.recv)
    (hchunk : k.buffer.data.take k.recv.toNat = Char.ofNat 0x07 :: rest) :
    readBranch k fd s = Except.ok
      { ClientInfoByFd := s.ClientInfoByFd,
        epoll := s.epoll,
        trace := s.trace ++ sends (keys s.ClientInfoByFd)
          ("[" ++ GetTime k.clock ++ "]  " ++
            (senderTag ci.Ip fd ++ spaces (22 - (senderTag ci.Ip fd).length)) ++ " | " ++
            String.mk (Char.ofNat 0x07 :: rest)) } := by
  rw [readBranch_chat_of_le k fd s ci hreg hlen hrecv, hchunk]

/-- Concrete instance of the amended C12: the chunk 0x07 'x' read from handle 6 goes to
handles 5 and 6. -/
theorem sentinel_chunk_is_broadcast_witness :
    readBranch { okKernel with recv := 2, buffer := String.mk [Char.ofNat 0x07, 'x'] } 6
        twoClients
      = Except.ok
        { ClientInfoByFd := twoClients.ClientInfoByFd,
          epoll := twoClients.epoll,
          trace := twoClients.trace ++ sends (keys twoClients.ClientInfoByFd)
            ("[" ++ GetTime okKernel.clock ++ "]  " ++
              (senderTag 0x6464A8C0 6 ++ spaces (22 - (senderTag 0x6464A8C0 6).length)) ++ " | " ++
              String.mk (Char.ofNat 0x07 :: ['x'])) } :=
  sentinel_chunk_is_broadcast { okKernel with recv := 2, buffer := String.mk [Char.ofNat 0x07, 'x'] }
    6 twoClients { Ip := 0x6464A8C0, Fd := 6 } ['x'] rfl (by decide) (by decide) rfl

/-! ## Claim on the address codec -/

theorem and_mask_shift (addr s : Nat) :
    (addr &&& (0xFF <<< s)) >>> s = (addr / 2 ^ s) % 256 := by
  apply Nat.eq_of_testBit_eq
  intro i
  have h256 : (256 : Nat) = 2 ^ 8 := by norm_num
  have hff : (0xFF : Nat) = 2 ^ 8 - 1 := by norm_num
  rw [h256, hff, ← Nat.shiftRight_eq_div_pow]
  simp only [Nat.testBit_shiftRight, Nat.testBit_and, Nat.testBit_mod_two_pow,
    Nat.testBit_shiftLeft, Nat.testBit_two_pow_sub_one]
  by_cases h : i < 8 <;> simp [h]

theorem toDigitsCore_head (fuel : Nat) : ∀ (n : Nat) (ds : List Char), n ≠ 0 → n < fuel →
    ∃ c rest, Nat.toDigitsCore 10 fuel n ds = c :: rest ∧ c ≠ '0' := by
  induction fuel with
  | zero => intro n ds _ h; omega
  | succ fuel ih =>
    intro n ds hn hlt
    simp only [Nat.toDigitsCore]
    by_cases h0 : n / 10 = 0
    · rw [if_pos h0]
      refine ⟨_, _, rfl, ?_⟩
      have hlt10 : n < 10 := by omega
      have hmod : n % 10 = n := Nat.mod_eq_of_lt hlt10
      rw [hmod]
      have key : ∀ m, m < 10 → 0 < m → Nat.digitChar m ≠ '0' := by decide
      exact key n hlt10 (Nat.pos_of_ne_zero hn)
    · rw [if_neg h0]
      exact ih _ _ h0 (by omega)

theorem to_string_canonical (n : Nat) : IsCanonicalDecimal (to_string n) := by
  refine ⟨to_string_digits n, ?_⟩
  by_cases hn : n = 0
  · left
    subst hn
    rfl
  · right
    obtain ⟨c, rest, hc, hne⟩ := toDigitsCore_head (n + 1) n [] hn (Nat.lt_succ_self n)
    refine ⟨c, rest, ?_, hne⟩
    simpa [to_string, Nat.repr, Nat.toDigits, List.asString] using hc

theorem not_digit_dot : ¬ IsDigitChar '.' := by unfold IsDigitChar; decide

theorem to_string_count_dot (n : Nat) : (to_string n).data.count '.' = 0 := by
  rw [List.count_eq_zero]
  intro hmem
  exact not_digit_dot (to_string_digits n _ hmem)

theorem IpToString_eq (addr : Nat) :
    IpToString addr = to_string (addr % 256) ++ "." ++ to_string (addr / 2 ^ 8 % 256) ++ "."
      ++ to_string (addr / 2 ^ 16 % 256) ++ "." ++ to_string (addr / 2 ^ 24 % 256) := by
  have h1 : addr &&& Mask1 = addr % 256 := by
    have := and_mask_shift addr 0
    simpa [Mask1] using this
  have h2 : (addr &&& Mask2) >>> 8 = addr / 2 ^ 8 % 256 := and_mask_shift addr 8
  have h3 : (addr &&& Mask3) >>> 16 = addr / 2 ^ 16 % 256 := and_mask_shift addr 16
  have h4 : (addr &&& Mask4) >>> 24 = addr / 2 ^ 24 % 256 := and_mask_shift addr 24
  simp only [IpToString, h1, h2, h3, h4]

/-- C13: for every 32-bit `addr`, `IpToString(addr)` is the decimal text of `addr mod 256`,
of `(addr / 2^8) mod 256`, of `(addr / 2^16) mod 256` and of `addr / 2^24`, lowest-order
byte first, joined by dots. Each number is below 256, each decimal text has digits only
and no leading zero, the result holds exactly three dots, and `0x0100007F` gives
"127.0.0.1". -/
theorem IpToString_dotted_decimal (addr : Nat) (h : addr < 2 ^ 32) :
    IpToString addr = to_string (addr % 256) ++ "." ++ to_string (addr / 2 ^ 8 % 256) ++ "."
        ++ to_string (addr / 2 ^ 16 % 256) ++ "." ++ to_string (addr / 2 ^ 24)
      ∧ addr % 256 < 256 ∧ addr / 2 ^ 8 % 256 < 256 ∧ addr / 2 ^ 16 % 256 < 256
      ∧ addr / 2 ^ 24 < 256
      ∧ IsCanonicalDecimal (to_string (addr % 256))
      ∧ IsCanonicalDecimal (to_string (addr / 2 ^ 8 % 256))
      ∧ IsCanonicalDecimal (to_string (addr / 2 ^ 16 % 256))
      ∧ IsCanonicalDecimal (to_string (addr / 2 ^ 24))
      ∧ (IpToString addr).data.count '.' = 3
      ∧ IpToString 0x0100007F = "127.0.0.1" := by
  have h4 : addr / 2 ^ 24 < 256 := by
    rw [Nat.div_lt_iff_lt_mul (by norm_num)]
    calc addr < 2 ^ 32 := h
      _ = 256 * 2 ^ 24 := by norm_num
  have hmod : addr / 2 ^ 24 % 256 = addr / 2 ^ 24 := Nat.mod_eq_of_lt h4
  have heq := IpToString_eq addr
  rw [hmod] at heq
  refine ⟨heq, Nat.mod_lt _ (by norm_num), Nat.mod_lt _ (by norm_num),
    Nat.mod_lt _ (by norm_num), h4, to_string_canonical _, to_string_canonical _,
    to_string_canonical _, to_string_canonical _, ?_, by rfl⟩
  rw [heq]
  simp only [String.data_append, List.count_append, to_string_count_dot]
  decide

/-- Concrete instance of C13: the address 192.168.100.100. -/
theorem IpToString_dotted_decimal_witness :
    IpToString 0x6464A8C0 = to_string (0x6464A8C0 % 256) ++ "." ++
        to_string (0x6464A8C0 / 2 ^ 8 % 256) ++ "." ++ to_string (0x6464A8C0 / 2 ^ 16 % 256) ++ "."
        ++ to_string (0x6464A8C0 / 2 ^ 24) :=
  (IpToString_dotted_decimal 0x6464A8C0 (by decide)).1

/-! ## Claim on the client's parser -/

theorem push_eq_append (ss : String) (c : Char) : ss.push c = ss ++ String.mk [c] := by
  cases ss
  rfl

theorem ParseOnlineUsersLoop_cons (c : Char) (rest : List Char) (ss : String)
    (users : List String) :
    ParseOnlineUsersLoop (c :: rest) ss users =
      if c = ';' then ParseOnlineUsersLoop rest "" (users ++ [ss ++ ")"])
      else if c = '/' then ParseOnlineUsersLoop rest (ss ++ " (") users
      else if c ≠ Char.ofNat 0x07 then ParseOnlineUsersLoop rest (ss.push c) users
      else ParseOnlineUsersLoop rest ss users := by
  rfl

theorem ParseOnlineUsersLoop_plain (l : List Char) (hl : ∀ c ∈ l, IsPlainChar c)
    (rest : List Char) (users : List String) :
    ∀ ss : String, ParseOnlineUsersLoop (l ++ rest) ss users
      = ParseOnlineUsersLoop rest (ss ++ String.mk l) users := by
  induction l with
  | nil => intro ss; simp
  | cons c l ih =>
    intro ss
    obtain ⟨h1, h2, h3⟩ := hl c (List.mem_cons_self _ _)
    have ih1 := ih (fun d hd => hl d (List.mem_cons_of_mem _ hd))
    rw [List.cons_append, ParseOnlineUsersLoop_cons, if_neg h1, if_neg h2, if_pos h3, ih1,
      push_eq_append, String.append_assoc]
    rfl

theorem digit_plain (c : Char) (h : IsDigitChar c) : IsPlainChar c := by
  unfold IsDigitChar at h
  refine ⟨?_, ?_, ?_⟩ <;> intro hc <;> subst hc <;> revert h <;> decide

theorem IpToString_plain (addr : Nat) : ∀ c ∈ (IpToString addr).data, IsPlainChar c := by
  intro c hc
  rcases IpToString_chars addr c hc with h | h
  · exact digit_plain c h
  · subst h
    unfold IsPlainChar
    decide

theorem to_string_int_plain (i : Int) : ∀ c ∈ (to_string_int i).data, IsPlainChar c := by
  intro c hc
  rcases to_string_int_chars i c hc with h | h
  · exact digit_plain c h
  · subst h
    unfold IsPlainChar
    decide

theorem ParseOnlineUsersLoop_entry (ci : ClientInfo) (rest : List Char) (users : List String) :
    ParseOnlineUsersLoop ((presenceEntry ci).data ++ rest) "" users
      = ParseOnlineUsersLoop rest "" (users ++ [senderTag ci.Ip ci.Fd]) := by
  have hdata : (presenceEntry ci).data ++ rest
      = (IpToString ci.Ip).data ++ ('/' :: ((to_string_int ci.Fd).data ++ (';' :: rest))) := by
    simp [presenceEntry, String.data_append]
  rw [hdata, ParseOnlineUsersLoop_plain _ (IpToString_plain _), ParseOnlineUsersLoop_cons,
    if_neg (by decide), if_pos rfl, ParseOnlineUsersLoop_plain _ (to_string_int_plain _),
    ParseOnlineUsersLoop_cons, if_pos rfl]
  have htag : "" ++ String.mk (IpToString ci.Ip).data ++ " (" ++ String.mk (to_string_int ci.Fd).data
      ++ ")" = senderTag ci.Ip ci.Fd := by
    apply String.ext
    simp [senderTag, String.data_append]
  rw [htag]

theorem ParseOnlineUsersLoop_entries (m : Registry) :
    ∀ users : List String,
      ParseOnlineUsersLoop (concat (m.map (fun kvp => presenceEntry kvp.2))).data "" users
        = users ++ m.map (fun kvp => senderTag kvp.2.Ip kvp.2.Fd) := by
  induction m with
  | nil => intro users; simp [concat, ParseOnlineUsersLoop]
  | cons e rest ih =>
    intro users
    simp only [List.map_cons, concat, String.data_append]
    rw [ParseOnlineUsersLoop_entry, ih]
    simp

/-- C15: for every registry, `ParseOnlineUsers(GetOnlineUsers(registry))` leaves in
`OnlineUsers` one element per session, in the iteration order of the registry (ascending
handles), the element of a session being `IpToString(Ip) ++ " (" ++ decimal(Fd) ++ ")"`. When
every session stores its own handle in `Fd`, as the accept branch sets it, this is the
sender tag `CreateMessage` builds for it. The empty registry gives the empty list. -/
theorem ParseOnlineUsers_GetOnlineUsers (m : Registry) (hwf : WellFormed m)
    (hfd : ∀ kvp ∈ m, kvp.2.Fd = kvp.1) :
    ParseOnlineUsers (GetOnlineUsers m) = m.map (fun kvp => senderTag kvp.2.Ip kvp.2.Fd)
      ∧ ParseOnlineUsers (GetOnlineUsers m) = m.map (fun kvp => senderTag kvp.2.Ip kvp.1)
      ∧ (ParseOnlineUsers (GetOnlineUsers m)).length = m.length
      ∧ (m.map Prod.fst).Pairwise (fun a b => a < b)
      ∧ ParseOnlineUsers (GetOnlineUsers []) = [] := by
  have h1 : ParseOnlineUsers (GetOnlineUsers m)
      = m.map (fun kvp => senderTag kvp.2.Ip kvp.2.Fd) := by
    unfold ParseOnlineUsers GetOnlineUsers
    have hd : ∀ X : String,
        (String.mk [Char.ofNat 0x07] ++ X).data = Char.ofNat 0x07 :: X.data := fun _ => rfl
    rw [GetOnlineUsersLoop_eq, hd, ParseOnlineUsersLoop_cons, if_neg (by decide), if_neg (by decide), if_neg (by simp),
      ParseOnlineUsersLoop_entries]
    simp
  refine ⟨h1, ?_, ?_, hwf, rfl⟩
  · rw [h1]
    apply List.map_congr_left
    intro kvp hk
    rw [hfd kvp hk]
  · rw [h1, List.length_map]

/-- Concrete instance of C15: the registry with handles 5 and 6. -/
theorem ParseOnlineUsers_GetOnlineUsers_witness :
    ParseOnlineUsers (GetOnlineUsers twoClients.ClientInfoByFd)
      = ["127.0.0.1 (5)", "192.168.100.100 (6)"] :=
  (ParseOnlineUsers_GetOnlineUsers twoClients.ClientInfoByFd (by decide) (by decide)).1

end ChatServer

namespace Allocator

/-! ## Memory lemmas -/

theorem getD_set (mem : List Nat) (i x v : Nat) :
    (mem.set i v).getD x 0 = if i = x ∧ i < mem.length then v else mem.getD x 0 := by
  simp only [List.getD_eq_getElem?_getD, List.getElem?_set]
  by_cases h : i = x
  · subst h
    by_cases hl : i < mem.length
    · simp [hl]
    · simp [hl, List.getElem?_eq_none (Nat.le_of_not_lt hl)]
  · simp [h]

theorem fill_length (n : Nat) : ∀ (mem : List Nat) (a v : Nat),
    (fill n mem a v).length = mem.length := by
  induction n with
  | zero => intro mem a v; rfl
  | succ n ih => intro mem a v; simp [fill, ih]

theorem fill_outside (n : Nat) : ∀ (mem : List Nat) (a v x : Nat), x < a ∨ a + n ≤ x →
    (fill n mem a v).getD x 0 = mem.getD x 0 := by
  induction n with
  | zero => intro mem a v x _; rfl
  | succ n ih =>
    intro mem a v x hx
    simp only [fill]
    rw [ih _ _ _ _ (by omega), getD_set]
    have : ¬ (a = x ∧ a < mem.length) := by omega
    rw [if_neg this]

theorem fill_inside (n : Nat) : ∀ (mem : List Nat) (a v x : Nat), a ≤ x → x < a + n →
    a + n ≤ mem.length → (fill n mem a v).getD x 0 = v := by
  induction n with
  | zero => intro mem a v x h1 h2 _; omega
  | succ n ih =>
    intro mem a v x h1 h2 hl
    simp only [fill]
    by_cases hx : x = a
    · subst hx
      rw [fill_outside n _ (x + 1) v x (Or.inl (by omega)), getD_set]
      have : x = x ∧ x < mem.length := ⟨rfl, by omega⟩
      rw [if_pos this]
    · exact ih _ _ _ _ (by omega) (by omega) (by simp only [List.length_set]; omega)

theorem copyForward_length (n : Nat) : ∀ (mem : List Nat) (dst src : Nat),
    (copyForward n mem dst src).length = mem.length := by
  induction n with
  | zero => intro mem dst src; rfl
  | succ n ih => intro mem dst src; simp [copyForward, ih]

theorem copyForward_outside (n : Nat) : ∀ (mem : List Nat) (dst src x : Nat),
    x < dst ∨ dst + n ≤ x → (copyForward n mem dst src).getD x 0 = mem.getD x 0 := by
  induction n with
  | zero => intro mem dst src x _; rfl
  | succ n ih =>
    intro mem dst src x hx
    simp only [copyForward]
    rw [ih _ _ _ _ (by omega), getD_set]
    have : ¬ (dst = x ∧ dst < mem.length) := by omega
    rw [if_neg this]

theorem copyForward_inside (n : Nat) : ∀ (mem : List Nat) (dst src j : Nat), dst ≤ src →
    src + n ≤ mem.length → j < n →
    (copyForward n mem dst src).getD (dst + j) 0 = mem.getD (src + j) 0 := by
  induction n with
  | zero => intro mem dst src j _ _ hj; omega
  | succ n ih =>
    intro mem dst src j hle hl hj
    simp only [copyForward]
    cases j with
    | zero =>
      show (copyForward n (mem.set dst (mem.getD src 0)) (dst + 1) (src + 1)).getD dst 0
        = mem.getD src 0
      rw [copyForward_outside n _ (dst + 1) (src + 1) dst (Or.inl (by omega)), getD_set]
      have : dst = dst ∧ dst < mem.length := ⟨rfl, by omega⟩
      rw [if_pos this]
    | succ j =>
      have h1 := ih (mem.set dst (mem.getD src 0)) (dst + 1) (src + 1) j (by omega)
        (by simp only [List.length_set]; omega) (by omega)
      have e1 : dst + (j + 1) = dst + 1 + j := by omega
      have e2 : src + (j + 1) = src + 1 + j := by omega
      rw [e1, e2, h1, getD_set]
      have : ¬ (dst = src + 1 + j ∧ dst < mem.length) := by omega
      rw [if_neg this]

theorem memcpy_some (mem mem1 : List Nat) (d : Nat) (src : Option Nat) (n : Nat)
    (h : memcpy mem (some d) src n = some mem1) :
    ∃ a, src = some a ∧ mem1 = copyForward n mem d a ∧ d + n ≤ mem.length
      ∧ a + n ≤ mem.length := by
  unfold memcpy at h
  cases src with
  | none => exact Option.noConfusion h
  | some a =>
    simp only at h
    by_cases hc : d + n ≤ mem.length ∧ a + n ≤ mem.length ∧ (n = 0 ∨ d + n ≤ a ∨ a + n ≤ d)
    · rw [if_pos hc] at h
      injection h with h
      exact ⟨a, rfl, h.symm, hc.1, hc.2.1⟩
    · rw [if_neg hc] at h
      exact Option.noConfusion h

theorem memset_eq (mem : List Nat) (a v n : Nat) (ha : a + n ≤ mem.length) :
    memset mem (some a) v n = some (fill n mem a v) := by
  unfold memset
  simp only
  rw [if_pos ha]

theorem memset_some (mem mem1 : List Nat) (a v n : Nat)
    (h : memset mem (some a) v n = some mem1) :
    mem1 = fill n mem a v ∧ a + n ≤ mem.length := by
  unfold memset at h
  simp only at h
  by_cases ha : a + n ≤ mem.length
  · rw [if_pos ha] at h
    injection h with h
    exact ⟨h.symm, ha⟩
  · rw [if_neg ha] at h
    exact Option.noConfusion h

theorem memset_length (mem mem1 : List Nat) (ptr : Option Nat) (v n : Nat)
    (h : memset mem ptr v n = some mem1) : mem1.length = mem.length := by
  cases ptr with
  | none => exact Option.noConfusion h
  | some a =>
    rw [(memset_some mem mem1 a v n h).1, fill_length]

/-! ## Layout lemmas -/

theorem Laid_le (l : List (Nat × BlockInfo)) : ∀ (lo hi : Nat), Laid lo l hi → lo ≤ hi := by
  induction l with
  | nil => intro lo hi h; exact h
  | cons e rest ih =>
    intro lo hi h
    rcases h with ⟨_, h⟩ | ⟨a, _, hla, h⟩
    · exact ih _ _ h
    · have := ih _ _ h
      omega

theorem Laid_mono (l : List (Nat × BlockInfo)) : ∀ (lo lo1 hi : Nat), lo1 ≤ lo →
    Laid lo l hi → Laid lo1 l hi := by
  induction l with
  | nil => intro lo lo1 hi hle h; exact Nat.le_trans hle h
  | cons e rest ih =>
    intro lo lo1 hi hle h
    rcases h with ⟨hz, h⟩ | ⟨a, ha, hla, h⟩
    · exact Or.inl ⟨hz, ih _ _ _ hle h⟩
    · exact Or.inr ⟨a, ha, Nat.le_trans hle hla, h⟩

theorem Laid_tail (e : Nat × BlockInfo) (rest : List (Nat × BlockInfo)) (lo hi : Nat)
    (h : Laid lo (e :: rest) hi) : Laid lo rest hi := by
  rcases h with ⟨_, h⟩ | ⟨a, _, hla, h⟩
  · exact h
  · exact Laid_mono _ _ _ _ (by omega) h

theorem Laid_append (l : List (Nat × BlockInfo)) (key id size : Nat) :
    ∀ (lo hi : Nat), Laid lo l hi →
      Laid lo (l ++ [(key, { Id := id, Addr := some hi, Size := size })]) (hi + size) := by
  induction l with
  | nil =>
    intro lo hi h
    exact Or.inr ⟨hi, rfl, h, Nat.le_refl _⟩
  | cons e rest ih =>
    intro lo hi h
    rcases h with ⟨hz, h⟩ | ⟨a, ha, hla, h⟩
    · exact Or.inl ⟨hz, ih _ _ h⟩
    · exact Or.inr ⟨a, ha, hla, ih _ _ h⟩

theorem Laid_assign_null (l : List (Nat × BlockInfo)) (k : Nat) :
    ∀ (lo hi : Nat), Laid lo l hi → Laid lo (assign l k nullReference) hi := by
  induction l with
  | nil => intro lo hi h; exact Or.inl ⟨rfl, h⟩
  | cons e rest ih =>
    intro lo hi h
    obtain ⟨k1, v1⟩ := e
    unfold assign
    by_cases h1 : k < k1
    · rw [if_pos h1]
      exact Or.inl ⟨rfl, h⟩
    · rw [if_neg h1]
      by_cases h2 : k = k1
      · rw [if_pos h2]
        exact Or.inl ⟨rfl, Laid_tail _ _ _ _ h⟩
      · rw [if_neg h2]
        rcases h with ⟨hz, h⟩ | ⟨a, ha, hla, h⟩
        · exact Or.inl ⟨hz, ih _ _ h⟩
        · exact Or.inr ⟨a, ha, hla, ih _ _ h⟩

theorem Laid_erase (l : List (Nat × BlockInfo)) (k : Nat) :
    ∀ (lo hi : Nat), Laid lo l hi → Laid lo (erase l k) hi := by
  induction l with
  | nil => intro lo hi h; exact h
  | cons e rest ih =>
    intro lo hi h
    obtain ⟨k1, v1⟩ := e
    unfold erase
    by_cases h1 : k1 = k
    · rw [if_pos h1]
      exact Laid_tail _ _ _ _ h
    · rw [if_neg h1]
      rcases h with ⟨hz, h⟩ | ⟨a, ha, hla, h⟩
      · exact Or.inl ⟨hz, ih _ _ h⟩
      · exact Or.inr ⟨a, ha, hla, ih _ _ h⟩

theorem sizeSum_cons (e : Nat × BlockInfo) (rest : List (Nat × BlockInfo)) :
    sizeSum (e :: rest) = e.2.Size + sizeSum rest := by
  simp [sizeSum]

theorem sizeSum_nil : sizeSum [] = 0 := rfl

theorem Laid_compacted (l : List (Nat × BlockInfo)) :
    ∀ base : Nat, Laid base (compacted base l) (base + sizeSum l) := by
  induction l with
  | nil => intro base; exact Nat.le_refl _
  | cons e rest ih =>
    intro base
    obtain ⟨key, bi⟩ := e
    refine Or.inr ⟨base, rfl, Nat.le_refl _, ?_⟩
    have := ih (base + bi.Size)
    rw [sizeSum_cons, ← Nat.add_assoc]
    exact this

theorem keys_compacted (l : List (Nat × BlockInfo)) :
    ∀ base : Nat, keys (compacted base l) = keys l := by
  induction l with
  | nil => intro base; rfl
  | cons e rest ih =>
    intro base
    obtain ⟨key, bi⟩ := e
    simp only [compacted, keys, List.map_cons] at ih ⊢
    rw [ih]

theorem compacted_getElem? (l : List (Nat × BlockInfo)) :
    ∀ (base i : Nat), (compacted base l)[i]? =
      (l[i]?).map (fun e => (e.1, { e.2 with Addr := some (base + sizeSum (l.take i)) })) := by
  induction l with
  | nil => intro base i; simp [compacted]
  | cons e rest ih =>
    intro base i
    obtain ⟨key, bi⟩ := e
    cases i with
    | zero => simp [compacted, sizeSum]
    | succ i =>
      simp only [compacted, List.getElem?_cons_succ, List.take_succ_cons, sizeSum_cons]
      rw [ih, Nat.add_assoc]

theorem sizeSum_take_le (l : List (Nat × BlockInfo)) :
    ∀ (i : Nat) (e : Nat × BlockInfo), l[i]? = some e →
      sizeSum (l.take i) + e.2.Size ≤ sizeSum l := by
  induction l with
  | nil => intro i e h; simp at h
  | cons e0 rest ih =>
    intro i e h
    cases i with
    | zero =>
      simp only [List.getElem?_cons_zero, Option.some.injEq] at h
      subst h
      simp [sizeSum]
    | succ i =>
      simp only [List.getElem?_cons_succ] at h
      have := ih i e h
      simp only [List.take_succ_cons, sizeSum_cons]
      omega

/-! ## The loop of `Defragment` -/

theorem DefragmentLoop_spec (hi : Nat) (hhi : hi < 2 ^ 64) (m0 : List Nat)
    (l : List (Nat × BlockInfo)) :
    ∀ (mem : List Nat) (p q : Nat) (r : List (Nat × BlockInfo) × List Nat × Nat),
      p ≤ q → Laid q l hi → hi ≤ mem.length →
      (∀ x, q ≤ x → mem.getD x 0 = m0.getD x 0) →
      DefragmentLoop l mem p = some r →
      r.1 = compacted p l ∧ r.2.2 = p + sizeSum l
        ∧ r.2.1.length = mem.length
        ∧ p + sizeSum l ≤ hi
        ∧ (∀ x, x < p → r.2.1.getD x 0 = mem.getD x 0)
        ∧ (∀ i e, l[i]? = some e → ∀ j, j < e.2.Size →
            ∃ a, e.2.Addr = some a
              ∧ r.2.1.getD (p + sizeSum (l.take i) + j) 0 = m0.getD (a + j) 0) := by
  induction l with
  | nil =>
    intro mem p q r hpq hl hlen hmem hloop
    unfold DefragmentLoop at hloop
    injection hloop with hloop
    subst hloop
    refine ⟨rfl, rfl, rfl, ?_, fun _ _ => rfl, ?_⟩
    · have : q ≤ hi := hl
      simp only [sizeSum_nil]
      omega
    · intro i e h
      simp at h
  | cons e0 rest ih =>
    intro mem p q r hpq hl hlen hmem hloop
    obtain ⟨key, bi⟩ := e0
    have hqhi : q ≤ hi := Laid_le _ _ _ hl
    unfold DefragmentLoop at hloop
    cases hc : memcpy mem (some p) bi.Addr bi.Size with
    | none => rw [hc] at hloop; exact Option.noConfusion hloop
    | some mem1 =>
      rw [hc] at hloop
      simp only at hloop
      obtain ⟨a1, ha1, hmem1eq, _, _⟩ := memcpy_some _ _ _ _ _ hc
      cases hrec : DefragmentLoop rest mem1 ((p + bi.Size) % 2 ^ 64) with
      | none => rw [hrec] at hloop; exact Option.noConfusion hloop
      | some r1 =>
        rw [hrec] at hloop
        simp only at hloop
        injection hloop with hloop
        subst hloop
        rcases hl with ⟨hz, hl⟩ | ⟨a, ha, hqa, hl⟩
        · -- a block of size zero: nothing is copied
          have hz1 : bi.Size = 0 := hz
          have hm : mem1 = mem := by rw [hmem1eq, hz1]; rfl
          have hmod : (p + bi.Size) % 2 ^ 64 = p := by
            rw [hz1, Nat.add_zero]
            exact Nat.mod_eq_of_lt (by omega)
          rw [hmod, hm] at hrec
          obtain ⟨hblocks, hidx, hlen1, hsum, hlow, hbytes⟩ :=
            ih mem p q r1 hpq hl hlen hmem hrec
          refine ⟨?_, ?_, hlen1, ?_, hlow, ?_⟩
          · show (key, _) :: r1.1 = _
            rw [hblocks]
            simp only [compacted, hz1, Nat.add_zero]
          · show r1.2.2 = _
            rw [hidx]
            simp only [sizeSum_cons, hz1, Nat.zero_add]
          · simp only [sizeSum_cons, hz1, Nat.zero_add]
            exact hsum
          · intro i e h j hj
            cases i with
            | zero =>
              simp only [List.getElem?_cons_zero, Option.some.injEq] at h
              subst h
              have hj0 : j < bi.Size := hj
              omega
            | succ i =>
              simp only [List.getElem?_cons_succ] at h
              obtain ⟨a, ha, hb⟩ := hbytes i e h j hj
              refine ⟨a, ha, ?_⟩
              simp only [List.take_succ_cons, sizeSum_cons, hz1, Nat.zero_add]
              exact hb
        · -- a block at offset `a`, at or after the blocks before it
          have ha2 : bi.Addr = some a := ha
          have haa : a1 = a := by
            rw [ha2] at ha1
            injection ha1 with ha1
            exact ha1.symm
          subst haa
          have hend : a1 + bi.Size ≤ hi := Laid_le _ _ _ hl
          have hmod : (p + bi.Size) % 2 ^ 64 = p + bi.Size := Nat.mod_eq_of_lt (by omega)
          have hmem1 : ∀ x, a1 + bi.Size ≤ x → mem1.getD x 0 = m0.getD x 0 := by
            intro x hx
            rw [hmem1eq, copyForward_outside _ _ _ _ _ (Or.inr (by omega))]
            exact hmem x (by omega)
          rw [hmod] at hrec
          obtain ⟨hblocks, hidx, hlen1, hsum, hlow, hbytes⟩ :=
            ih mem1 (p + bi.Size) (a1 + bi.Size) r1 (by omega) hl
              (by rw [hmem1eq, copyForward_length]; exact hlen) hmem1 hrec
          refine ⟨?_, ?_, ?_, ?_, ?_, ?_⟩
          · show (key, _) :: r1.1 = _
            rw [hblocks]
            simp only [compacted]
          · show r1.2.2 = _
            rw [hidx]
            simp only [sizeSum_cons, Nat.add_assoc]
          · show r1.2.1.length = _
            rw [hlen1, hmem1eq, copyForward_length]
          · simp only [sizeSum_cons]
            omega
          · intro x hx
            show r1.2.1.getD x 0 = _
            rw [hlow x (by omega), hmem1eq, copyForward_outside _ _ _ _ _ (Or.inl hx)]
          · intro i e h j hj
            cases i with
            | zero =>
              simp only [List.getElem?_cons_zero, Option.some.injEq] at h
              subst h
              refine ⟨a1, ha2, ?_⟩
              have hj1 : j < bi.Size := hj
              simp only [List.take_zero, sizeSum_nil, Nat.add_zero]
              show r1.2.1.getD (p + j) 0 = _
              rw [hlow (p + j) (by omega), hmem1eq,
                copyForward_inside _ _ _ _ _ (by omega) (by omega) hj1]
              exact hmem (a1 + j) (by omega)
            | succ i =>
              simp only [List.getElem?_cons_succ] at h
              obtain ⟨a2, ha3, hb⟩ := hbytes i e h j hj
              refine ⟨a2, ha3, ?_⟩
              simp only [List.take_succ_cons, sizeSum_cons]
              have e1 : p + (bi.Size + sizeSum (List.take i rest)) + j
                  = p + bi.Size + sizeSum (List.take i rest) + j := by omega
              rw [e1]
              exact hb

/-! ## Map lemmas -/

theorem mem_keys_of_find {β : Type} (m : List (Nat × β)) (k : Nat) (v : β)
    (h : find m k = some v) : k ∈ keys m := by
  induction m with
  | nil => simp [find] at h
  | cons e rest ih =>
    obtain ⟨k1, v1⟩ := e
    unfold find at h
    by_cases h1 : k1 = k
    · subst h1
      simp [keys]
    · rw [if_neg h1] at h
      have := ih h
      simp only [keys, List.map_cons, List.mem_cons] at this ⊢
      exact Or.inr this

theorem assign_of_gt {β : Type} (m : List (Nat × β)) (k : Nat) (v : β)
    (h : ∀ k1 ∈ keys m, k1 < k) : assign m k v = m ++ [(k, v)] := by
  induction m with
  | nil => rfl
  | cons e rest ih =>
    obtain ⟨k1, v1⟩ := e
    have hk1 : k1 < k := h k1 (by simp [keys])
    have hrest : ∀ k2 ∈ keys rest, k2 < k := by
      intro k2 hk2
      exact h k2 (by simp only [keys, List.map_cons, List.mem_cons] at hk2 ⊢; exact Or.inr hk2)
    unfold assign
    rw [if_neg (by omega), if_neg (by omega), ih hrest]
    rfl

theorem mem_keys_assign {β : Type} (m : List (Nat × β)) (k : Nat) (v : β) (x : Nat) :
    x ∈ keys (assign m k v) ↔ x = k ∨ x ∈ keys m := by
  induction m with
  | nil => simp [assign, keys]
  | cons e rest ih =>
    obtain ⟨k1, v1⟩ := e
    unfold assign
    by_cases h1 : k < k1
    · simp [h1, keys]
    · by_cases h2 : k = k1
      · subst h2
        simp [keys]
      · simp only [h1, h2, if_false]
        simp only [keys, List.map_cons, List.mem_cons] at ih ⊢
        rw [ih]
        tauto

theorem sorted_assign {β : Type} (m : List (Nat × β)) (k : Nat) (v : β)
    (h : (keys m).Pairwise (fun a b => a < b)) :
    (keys (assign m k v)).Pairwise (fun a b => a < b) := by
  induction m with
  | nil => simp [assign, keys]
  | cons e rest ih =>
    obtain ⟨k1, v1⟩ := e
    have hrest : (keys rest).Pairwise (fun a b => a < b) := by
      unfold keys at h ⊢
      exact (List.pairwise_cons.mp h).2
    have hhead : ∀ x ∈ keys rest, k1 < x := by
      unfold keys at h
      exact (List.pairwise_cons.mp h).1
    unfold assign
    by_cases h1 : k < k1
    · rw [if_pos h1]
      unfold keys
      refine List.pairwise_cons.mpr ⟨?_, h⟩
      intro x hx
      rcases List.mem_cons.mp hx with rfl | hx
      · exact h1
      · exact Nat.lt_trans h1 (hhead x hx)
    · rw [if_neg h1]
      by_cases h2 : k = k1
      · subst h2
        rw [if_pos rfl]
        unfold keys
        exact List.pairwise_cons.mpr ⟨hhead, hrest⟩
      · rw [if_neg h2]
        have ih1 := ih hrest
        show List.Pairwise _ (k1 :: keys (assign rest k v))
        refine List.pairwise_cons.mpr ⟨?_, ih1⟩
        intro x hx
        rcases (mem_keys_assign rest k v x).mp hx with rfl | hx
        · omega
        · exact hhead x hx

theorem keys_erase_sublist {β : Type} (m : List (Nat × β)) (k : Nat) :
    (keys (erase m k)).Sublist (keys m) := by
  induction m with
  | nil => exact List.Sublist.refl _
  | cons e rest ih =>
    obtain ⟨k1, v1⟩ := e
    unfold erase
    by_cases h1 : k1 = k
    · rw [if_pos h1]
      exact List.sublist_cons_self _ _
    · rw [if_neg h1]
      exact List.Sublist.cons₂ _ ih

/-! ## `Defragment` on a state that satisfies the invariant -/

theorem u64_sub_of_le (a b : Nat) (ha : a < 2 ^ 64) (hb : b ≤ a) : u64_sub a b = a - b := by
  simp only [u64_sub, Nat.reducePow] at *
  omega

theorem Defragment_spec (MemorySize : Nat) (hM : MemorySize < 2 ^ 64)
    (s s1 : SmartAllocator) (hinv : Inv MemorySize s)
    (h : Defragment MemorySize s = some s1) :
    s1._blockInfoById = compacted 0 s._blockInfoById
      ∧ s1._blockUniqueId = s._blockUniqueId
      ∧ s1._index = sizeSum s._blockInfoById
      ∧ s1._index ≤ s._index
      ∧ s1._memory.length = MemorySize
      ∧ (∀ x, s1._index ≤ x → x < MemorySize → s1._memory.getD x 0 = 0)
      ∧ (∀ i e, s._blockInfoById[i]? = some e → ∀ j, j < e.2.Size →
          ∃ a, e.2.Addr = some a
            ∧ s1._memory.getD (sizeSum (s._blockInfoById.take i) + j) 0
              = s._memory.getD (a + j) 0) := by
  obtain ⟨hlen, hidx, _, _, hlaid⟩ := hinv
  unfold Defragment at h
  cases hloop : DefragmentLoop s._blockInfoById s._memory 0 with
  | none => rw [hloop] at h; exact Option.noConfusion h
  | some r =>
    rw [hloop] at h
    simp only at h
    obtain ⟨hblocks, hri, hlen1, hsum, _, hbytes⟩ :=
      DefragmentLoop_spec s._index (by omega) s._memory s._blockInfoById s._memory 0 0 r
        (Nat.le_refl _) hlaid (by omega) (fun _ _ => rfl) hloop
    simp only [Nat.zero_add] at hri hsum hbytes
    have hsub : u64_sub MemorySize r.2.2 = MemorySize - sizeSum s._blockInfoById := by
      rw [hri]
      exact u64_sub_of_le _ _ hM (by omega)
    cases hset : memset r.2.1 (some r.2.2) 0 (u64_sub MemorySize r.2.2) with
    | none => rw [hset] at h; exact Option.noConfusion h
    | some mem2 =>
      rw [hset] at h
      simp only at h
      injection h with h
      subst h
      rw [hsub, hri] at hset
      obtain ⟨hmem2, _⟩ := memset_some _ _ _ _ _ hset
      refine ⟨hblocks, rfl, hri, ?_, ?_, ?_, ?_⟩
      · show r.2.2 ≤ s._index
        omega
      · show mem2.length = MemorySize
        rw [hmem2, fill_length]
        omega
      · intro x hx hxM
        have hx1 : r.2.2 ≤ x := hx
        show mem2.getD x 0 = 0
        rw [hmem2]
        exact fill_inside _ _ _ _ _ (by omega) (by omega) (by omega)
      · intro i e he j hj
        obtain ⟨a, ha, hb⟩ := hbytes i e he j hj
        refine ⟨a, ha, ?_⟩
        have hle := sizeSum_take_le _ i e he
        show mem2.getD _ 0 = _
        rw [hmem2, fill_outside _ _ _ _ _ (Or.inl (by omega))]
        exact hb

/-! ## The invariant holds after every call that stays within the buffer -/

theorem Inv_construct (MemorySize : Nat) : Inv MemorySize (construct MemorySize) := by
  refine ⟨?_, ?_, ?_, ?_, ?_⟩
  · simp [construct, Reset]
  · exact Nat.zero_le _
  · simp [construct, Reset, keys]
  · intro k hk
    simp [construct, Reset, keys] at hk
  · exact Nat.le_refl 0

theorem Inv_Alloc (MemorySize : Nat) (s : SmartAllocator) (size : Nat)
    (hinv : Inv MemorySize s) (hsum : s._index + size < 2 ^ 64)
    (hid : s._blockUniqueId + 1 < 2 ^ 64) : Inv MemorySize (Alloc MemorySize s size).2 := by
  obtain ⟨hlen, hidx, hsorted, hbound, hlaid⟩ := hinv
  unfold Alloc
  have hmod : (s._index + size) % 2 ^ 64 = s._index + size := Nat.mod_eq_of_lt hsum
  have hmod1 : (s._blockUniqueId + 1) % 2 ^ 64 = s._blockUniqueId + 1 := Nat.mod_eq_of_lt hid
  by_cases hfull : (s._index + size) % 2 ^ 64 ≥ MemorySize
  · rw [if_pos hfull]
    exact ⟨hlen, hidx, hsorted, hbound, hlaid⟩
  · rw [if_neg hfull]
    simp only [hmod, hmod1]
    rw [hmod] at hfull
    have happ := assign_of_gt s._blockInfoById s._blockUniqueId
      ({ Id := s._blockUniqueId, Addr := some s._index, Size := size } : BlockInfo) hbound
    refine ⟨hlen, (show s._index + size ≤ MemorySize by omega),
      sorted_assign _ _ _ hsorted, ?_, ?_⟩
    · intro k hk
      show k < s._blockUniqueId + 1
      rcases (mem_keys_assign _ _ _ k).mp hk with rfl | hk
      · omega
      · have := hbound k hk
        omega
    · show Laid 0 (assign s._blockInfoById s._blockUniqueId _) (s._index + size)
      rw [happ]
      exact Laid_append _ _ _ _ _ _ hlaid

theorem Inv_Free (MemorySize : Nat) (s s1 : SmartAllocator) (r : BlockRef)
    (hinv : Inv MemorySize s) (h : Free s r = some s1) : Inv MemorySize s1 := by
  obtain ⟨hlen, hidx, hsorted, hbound, hlaid⟩ := hinv
  unfold Free at h
  cases hd : deref s r with
  | none => rw [hd] at h; exact Option.noConfusion h
  | some b =>
    rw [hd] at h
    simp only at h
    by_cases hc : count s._blockInfoById b.Id = 1
    · rw [if_pos hc] at h
      cases hf : find s._blockInfoById b.Id with
      | none => rw [hf] at h; exact Option.noConfusion h
      | some bi =>
        rw [hf] at h
        simp only at h
        cases hm : memset s._memory b.Addr 0 bi.Size with
        | none => rw [hm] at h; exact Option.noConfusion h
        | some mem =>
          rw [hm] at h
          simp only at h
          split at h
          · exact Option.noConfusion h
          · rename_i b1 _
            injection h with h
            subst h
            have hkey : b.Id ∈ keys s._blockInfoById := mem_keys_of_find _ _ _ hf
            have hs2 : (keys (assign s._blockInfoById b.Id nullReference)).Pairwise
                (fun a b => a < b) := sorted_assign _ _ _ hsorted
            have hb2 : ∀ k ∈ keys (assign s._blockInfoById b.Id nullReference),
                k < s._blockUniqueId := by
              intro k hk
              rcases (mem_keys_assign _ _ _ k).mp hk with rfl | hk
              · exact hbound _ hkey
              · exact hbound k hk
            refine ⟨?_, hidx, ?_, ?_, ?_⟩
            · rw [← hlen]
              exact memset_length _ _ _ _ _ hm
            · exact List.Pairwise.sublist (keys_erase_sublist _ _) hs2
            · intro k hk
              exact hb2 k ((keys_erase_sublist _ _).subset hk)
            · exact Laid_erase _ _ _ _ (Laid_assign_null _ _ _ _ hlaid)
    · rw [if_neg hc] at h
      injection h with h
      subst h
      exact ⟨hlen, hidx, hsorted, hbound, hlaid⟩

theorem Inv_Defragment (MemorySize : Nat) (hM : MemorySize < 2 ^ 64) (s s1 : SmartAllocator)
    (hinv : Inv MemorySize s) (h : Defragment MemorySize s = some s1) :
    Inv MemorySize s1 := by
  obtain ⟨hblocks, huid, hindex, hle, hlen, _, _⟩ := Defragment_spec MemorySize hM s s1 hinv h
  obtain ⟨_, hidx, hsorted, hbound, hlaid⟩ := hinv
  refine ⟨hlen, by omega, ?_, ?_, ?_⟩
  · rw [hblocks, keys_compacted]
    exact hsorted
  · intro k hk
    rw [hblocks, keys_compacted] at hk
    rw [huid]
    exact hbound k hk
  · rw [hblocks, hindex]
    have := Laid_compacted s._blockInfoById 0
    simpa using this

theorem Inv_step (MemorySize : Nat) (hM : MemorySize < 2 ^ 64) (s s1 : SmartAllocator)
    (op : Op) (hinv : Inv MemorySize s) (h : step MemorySize s op = some s1) :
    Inv MemorySize s1 := by
  cases op with
  | alloc size =>
    simp only [step] at h
    by_cases hg : s._index + size < 2 ^ 64 ∧ s._blockUniqueId + 1 < 2 ^ 64
    · rw [if_pos hg] at h
      injection h with h
      subst h
      exact Inv_Alloc MemorySize s size hinv hg.1 hg.2
    · rw [if_neg hg] at h
      exact Option.noConfusion h
  | free r => exact Inv_Free MemorySize s s1 r hinv h
  | defragment => exact Inv_Defragment MemorySize hM s s1 hinv h
  | write offset value =>
    simp only [step] at h
    by_cases hg : offset < MemorySize
    · rw [if_pos hg] at h
      injection h with h
      subst h
      obtain ⟨hlen, hidx, hsorted, hbound, hlaid⟩ := hinv
      exact ⟨by simp only [List.length_set]; exact hlen, hidx, hsorted, hbound, hlaid⟩
    · rw [if_neg hg] at h
      exact Option.noConfusion h

theorem Inv_calls (MemorySize : Nat) (hM : MemorySize < 2 ^ 64) (ops : List Op) :
    ∀ s s1 : SmartAllocator, Inv MemorySize s → run MemorySize ops s = some s1 →
      Inv MemorySize s1 := by
  induction ops with
  | nil =>
    intro s s1 hinv h
    unfold run at h
    injection h with h
    subst h
    exact hinv
  | cons op rest ih =>
    intro s s1 hinv h
    unfold run at h
    cases hs : step MemorySize s op with
    | none => rw [hs] at h; exact Option.noConfusion h
    | some s2 =>
      rw [hs] at h
      exact ih s2 s1 (Inv_step MemorySize hM s s2 op hinv hs) h

/-! ## Claims on the allocators -/

theorem compacted_keeps (l : List (Nat × BlockInfo)) : ∀ base : Nat,
    (compacted base l).map (fun e => (e.1, e.2.Id, e.2.Size))
      = l.map (fun e => (e.1, e.2.Id, e.2.Size)) := by
  induction l with
  | nil => intro base; rfl
  | cons e rest ih =>
    intro base
    obtain ⟨key, bi⟩ := e
    simp only [compacted, List.map_cons]
    rw [ih]

/-- Whenever `Defragment` is defined on a state reached from the constructor by `Alloc`,
`Free`, `Defragment` and byte stores, it compacts as intended: same elements in the same
order with the same `Id` and `Size`, the element at position i at the sum of the sizes
before it, the bytes of every block kept, the rest of the buffer zero, `_index` the sum of
the sizes. -/
theorem Defragment_post_of_defined (MemorySize : Nat) (hM : MemorySize < 2 ^ 64)
    (ops : List Op) (s s1 : SmartAllocator)
    (h : run MemorySize ops (construct MemorySize) = some s)
    (hd : Defragment MemorySize s = some s1) :
    s1._blockInfoById.map (fun e => (e.1, e.2.Id, e.2.Size))
        = s._blockInfoById.map (fun e => (e.1, e.2.Id, e.2.Size))
      ∧ (∀ (i : Nat) (e1 : Nat × BlockInfo), s1._blockInfoById[i]? = some e1 →
          e1.2.Addr = some (sizeSum (s._blockInfoById.take i)))
      ∧ (∀ (i : Nat) (e e1 : Nat × BlockInfo),
          s._blockInfoById[i]? = some e → s1._blockInfoById[i]? = some e1 →
          ∀ j, j < e.2.Size → ∃ a a1, e.2.Addr = some a ∧ e1.2.Addr = some a1
            ∧ s1._memory.getD (a1 + j) 0 = s._memory.getD (a + j) 0)
      ∧ (∀ x, s1._index ≤ x → x < MemorySize → s1._memory.getD x 0 = 0)
      ∧ s1._index = sizeSum s._blockInfoById
      ∧ s1._memory.length = MemorySize := by
  have hinv := Inv_calls MemorySize hM ops _ s (Inv_construct MemorySize) h
  obtain ⟨hblocks, _, hindex, _, hlen, hzero, hbytes⟩ :=
    Defragment_spec MemorySize hM s s1 hinv hd
  have haddr : ∀ i e1, s1._blockInfoById[i]? = some e1 →
      e1.2.Addr = some (sizeSum (s._blockInfoById.take i)) := by
    intro i e1 he1
    rw [hblocks, compacted_getElem?] at he1
    cases hl : s._blockInfoById[i]? with
    | none => rw [hl] at he1; exact Option.noConfusion he1
    | some e =>
      rw [hl] at he1
      simp only [Option.map_some', Option.some.injEq] at he1
      rw [← he1]
      simp
  refine ⟨?_, haddr, ?_, hzero, hindex, hlen⟩
  · rw [hblocks]
    exact compacted_keeps _ 0
  · intro i e e1 he he1 j hj
    obtain ⟨a, ha, hb⟩ := hbytes i e he j hj
    exact ⟨a, _, ha, haddr i e1 he1, hb⟩

/-- An instance where `Defragment` is defined: the remaining block of 4 bytes at offset 4
moves to offset 0, and source and destination do not overlap. -/
theorem Defragment_defined_instance :
    (run 64 disjointOps (construct 64)).bind (Defragment 64) = some
      { _memory := [1, 2, 3, 4] ++ List.replicate 60 0,
        _index := 4,
        _blockInfoById := [(2, { Id := 2, Addr := some 0, Size := 4 })],
        _blockUniqueId := 3 } := by
  rfl

/-- C16, the code at the failing input: with `_index = 1` (after `Alloc(1)`), the call
`Alloc(2^64 - 1)` passes the check because `_index + size` wraps to 0; it returns the
block at offset 1, whose end `1 + (2^64 - 1)` is far beyond the buffer, and leaves
`_index = 0`. Both allocators behave alike. -/
theorem Alloc_wraps_around :
    SmallAllocator.Alloc (SmallAllocator.Alloc SmallAllocator.construct 1).2 (2 ^ 64 - 1)
        = (some 1,
            { _memory := List.replicate 32 0, _index := 0,
              _blockSizeByAddr := [(0, 1), (1, 2 ^ 64 - 1)] })
      ∧ Alloc 64 (Alloc 64 (construct 64) 1).2 (2 ^ 64 - 1)
        = (BlockRef.entry 2,
            { _memory := List.replicate 64 0, _index := 0,
              _blockInfoById :=
                [ (1, { Id := 1, Addr := some 0, Size := 1 }),
                  (2, { Id := 2, Addr := some 1, Size := 2 ^ 64 - 1 }) ],
              _blockUniqueId := 3 })
      ∧ ¬ (1 + (2 ^ 64 - 1) ≤ SmallAllocator.MemorySize)
      ∧ ¬ (1 + (2 ^ 64 - 1) ≤ 64) :=
  ⟨by rfl, by rfl, by decide, by decide⟩

end Allocator
